import Mathlib

/-!
# Verification of the conduit-ts binary stream codec

Shallow embedding of the repository's core components:

* `Endian` and the `ValueReader` implementations
  (`BitOpsValueReader`, `DataViewValueReader`, `PerformanceValueReader`),
* the `StreamWriter` typed write operations (their emitted bytes),
* the `StreamReader` incremental buffering state machine
  (`ensureBufferFilledToAtLeast` / `read` / `trimBuffer` / `readUntilEof`),
* the `uint8ArrayFromBufferSource` buffer coercion.

Bytes are modelled as `Nat` (with `< 256` bounds where the JavaScript
runtime guarantees them), byte buffers as `List Nat`.  JavaScript 32-bit
integer bit operations are modelled on the underlying unsigned 32-bit bit
patterns (`Nat` with explicit `% 2^32`), and BigInt arithmetic exactly on
`Nat`/`Int`.
-/

/-- The `Endian` enumeration from `shared.ts`. -/
inductive Endian where
  | Little
  | Big
deriving DecidableEq, Repr

/-- The mathematical value of a little-endian byte list:
`valLE [b0, b1, ...] = b0 + 256*b1 + ...`. -/
def valLE : List Nat → Nat
  | [] => 0
  | b :: bs => b + 256 * valLE bs

/-- The mathematical value of a big-endian byte list
(first byte most significant). -/
def valBE : List Nat → Nat
  | [] => 0
  | b :: bs => b * 256 ^ bs.length + valBE bs

/-- Unsigned value reinterpreted as two's complement at bit width `k`. -/
def toSigned (u : Nat) (k : Nat) : Int :=
  if 2 ^ (k - 1) ≤ u then (u : Int) - 2 ^ k else (u : Int)

/-- JavaScript `ToInt32` of an unsigned 32-bit bit pattern. -/
def toInt32 (x : Nat) : Int := toSigned (x % 2 ^ 32) 32

/-! ## DataView primitives

Embedding of the ECMAScript `DataView` get/set operations used by
`StreamWriter` and `DataViewValueReader`: `getUintN(0, littleEndian)`
reads the first `w` bytes of the backing buffer, `setUintN` stores the
base-256 digits of the value (mod `2^(8w)`) in the requested order. -/

/-- Little-endian base-256 digits of `v`, `w` bytes. -/
def digitsLE : Nat → Nat → List Nat
  | 0, _ => []
  | w + 1, v => (v % 256) :: digitsLE w (v / 256)

/-- `DataView.getUintW(0, little)` over a byte list. -/
def dvGetUint (w : Nat) (bytes : List Nat) (little : Bool) : Nat :=
  if little then valLE (bytes.take w) else valBE (bytes.take w)

/-- `DataView.getIntW(0, little)` over a byte list. -/
def dvGetInt (w : Nat) (bytes : List Nat) (little : Bool) : Int :=
  toSigned (dvGetUint w bytes little) (8 * w)

/-- The `w` bytes stored by `DataView.setUintW(0, v, little)`. -/
def dvSetUint (w : Nat) (v : Nat) (little : Bool) : List Nat :=
  if little then digitsLE w v else (digitsLE w v).reverse

/-- The `w` bytes stored by `DataView.setIntW(0, v, little)`:
the value is wrapped to `w` bytes (`ToUintN`) and stored like an
unsigned value. -/
def dvSetInt (w : Nat) (v : Int) (little : Bool) : List Nat :=
  dvSetUint w (v % (2 ^ (8 * w) : Nat)).toNat little

/-! ## StreamWriter (`writer.ts`)

Each typed write fully overwrites the first `W` bytes of the writer's
8-byte scratch window via a `DataView` set operation and hands
`buffer.slice(0, W)` to the sink; the emitted bytes are therefore a pure
function of the value and byte order, which is what we model. -/

namespace StreamWriter

/-- `writeUint8`: `buffer.set([value], 0)` stores `ToUint8(value)`. -/
def writeUint8 (v : Nat) : List Nat := [v % 256]

/-- `writeInt8`: `setInt8(0, value)`. -/
def writeInt8 (v : Int) : List Nat := dvSetInt 1 v true

/-- `writeUint16`: `setUint16(0, value, endian === Endian.Little)`. -/
def writeUint16 (v : Nat) (endian : Endian) : List Nat :=
  dvSetUint 2 v (endian = Endian.Little)

/-- `writeInt16`. -/
def writeInt16 (v : Int) (endian : Endian) : List Nat :=
  dvSetInt 2 v (endian = Endian.Little)

/-- `writeUint32`. -/
def writeUint32 (v : Nat) (endian : Endian) : List Nat :=
  dvSetUint 4 v (endian = Endian.Little)

/-- `writeInt32`. -/
def writeInt32 (v : Int) (endian : Endian) : List Nat :=
  dvSetInt 4 v (endian = Endian.Little)

/-- `writeUint64`: `setBigUint64`. -/
def writeUint64 (v : Nat) (endian : Endian) : List Nat :=
  dvSetUint 8 v (endian = Endian.Little)

/-- `writeInt64`: `setBigInt64`. -/
def writeInt64 (v : Int) (endian : Endian) : List Nat :=
  dvSetInt 8 v (endian = Endian.Little)

end StreamWriter

/-! ## BitOpsValueReader

JavaScript bitwise operators work on 32-bit patterns; we model the
patterns as `Nat < 2^32` with explicit `% 2^32` where an intermediate
could exceed 32 bits, and `>>` (arithmetic shift) as floor division on
the `ToInt32` interpretation. -/

namespace BitOpsValueReader

/-- Loop body of the `Endian.Little` branch of `bufferToUnsignedNumber`:
`result |= buffer[i] << (i * 8)` (shift counts are taken mod 32 by
JavaScript). -/
def bufLEAux : List Nat → Nat → Nat → Nat
  | [], _, r => r
  | b :: bs, i, r => bufLEAux bs (i + 1) (r ||| b <<< (8 * i % 32) % 2 ^ 32)

/-- `bufferToUnsignedNumber(buffer, endian)`: 32-bit fold over the bytes,
returned via `>>> 0` (an unsigned 32-bit pattern). -/
def bufferToUnsignedNumber (buffer : List Nat) (endian : Endian) : Nat :=
  match endian with
  | .Little => bufLEAux buffer 0 0
  | .Big => buffer.foldl (fun r b => (r <<< 8) % 2 ^ 32 ||| b) 0

/-- `toSignedNumber(u, bits)`: mask the low `bits`, shift to the sign bit
of an int32, arithmetic-shift back (`>>` = floor division by `2^shift`
of the `ToInt32` value). -/
def toSignedNumber (u : Nat) (bits : Nat) : Int :=
  let mask := (1 <<< (bits % 32)) % 2 ^ 32 - 1
  let shift := 32 - bits
  Int.fdiv (toInt32 ((u &&& mask) <<< (shift % 32) % 2 ^ 32)) (2 ^ (shift % 32))

/-- Big-endian chunk loop of `bufferToUnsignedBigInt`:
`result = (result << BigInt(slice.length * 8)) | BigInt(part)`. -/
def bigBEAux : List Nat → Nat → Nat
  | [], r => r
  | b :: bs, r =>
    bigBEAux ((b :: bs).drop 4)
      (r <<< (8 * ((b :: bs).take 4).length) |||
        bufferToUnsignedNumber ((b :: bs).take 4) .Big)
termination_by bs _ => bs.length
decreasing_by simp [List.length_drop]; omega

/-- Little-endian chunk loop of `bufferToUnsignedBigInt`:
`result |= BigInt(part) << shift; shift += BigInt(slice.length * 8)`. -/
def bigLEAux : List Nat → Nat → Nat → Nat
  | [], _, r => r
  | b :: bs, shift, r =>
    bigLEAux ((b :: bs).drop 4) (shift + 8 * ((b :: bs).take 4).length)
      (r ||| bufferToUnsignedNumber ((b :: bs).take 4) .Little <<< shift)
termination_by bs _ _ => bs.length
decreasing_by simp [List.length_drop]; omega

/-- `bufferToUnsignedBigInt(buffer, endian)`: decode in 4-byte sub-chunks
via `bufferToUnsignedNumber` and recombine with exact BigInt shifts. -/
def bufferToUnsignedBigInt (buffer : List Nat) (endian : Endian) : Nat :=
  match endian with
  | .Big => bigBEAux buffer 0
  | .Little => bigLEAux buffer 0 0

/-- `readUint8(buf) = buf[0]`. -/
def readUint8 (buf : List Nat) : Nat := buf.getD 0 0

/-- `readUint16`. -/
def readUint16 (buf : List Nat) (endian : Endian) : Nat :=
  bufferToUnsignedNumber buf endian

/-- `readUint32`. -/
def readUint32 (buf : List Nat) (endian : Endian) : Nat :=
  bufferToUnsignedNumber buf endian

/-- `readUint64`. -/
def readUint64 (buf : List Nat) (endian : Endian) : Nat :=
  bufferToUnsignedBigInt buf endian

/-- `readInt8`. -/
def readInt8 (buf : List Nat) : Int := toSignedNumber (buf.getD 0 0) 8

/-- `readInt16`. -/
def readInt16 (buf : List Nat) (endian : Endian) : Int :=
  toSignedNumber (bufferToUnsignedNumber buf endian) 16

/-- `readInt32`: `readUint32(buf, endian) | 0`. -/
def readInt32 (buf : List Nat) (endian : Endian) : Int :=
  toInt32 (readUint32 buf endian)

/-- `readInt64`: mask to 64 bits, subtract `2^64` when the sign bit is
set. -/
def readInt64 (buf : List Nat) (endian : Endian) : Int :=
  let u := bufferToUnsignedBigInt buf endian
  let ui := u &&& (2 ^ 64 - 1)
  if ui &&& (1 <<< 63) ≠ 0 then (ui : Int) - 2 ^ 64 else (ui : Int)

end BitOpsValueReader

/-! ## DataViewValueReader

Stateful: an 8-byte scratch buffer persists across calls and
`loadBuffer` only overwrites a prefix, so each operation is a function
of the buffer *and* the previous scratch contents; operations return the
value together with the new scratch state. -/

/-- The `DataViewValueReader` instance state: its scratch buffer
(8 bytes; `new ArrayBuffer(8)` starts zeroed). -/
structure DataViewValueReader where
  scratch : List Nat
deriving Repr, DecidableEq

namespace DataViewValueReader

/-- A freshly constructed instance (zeroed scratch). -/
def init : DataViewValueReader := ⟨List.replicate 8 0⟩

/-- `loadBuffer(buf)`: `new Uint8Array(this.scratchBuf).set(buf)` writes
`buf` at offset 0 and leaves the remaining scratch bytes untouched.
(Defined for `buf.length ≤ 8`; longer buffers make the JavaScript `set`
throw a `RangeError` and are outside the modelled domain.) -/
def loadBuffer (s : DataViewValueReader) (buf : List Nat) : DataViewValueReader :=
  ⟨(buf ++ s.scratch.drop buf.length).take 8⟩

/-- `readUint8`. -/
def readUint8 (s : DataViewValueReader) (buf : List Nat) : Nat × DataViewValueReader :=
  let s' := s.loadBuffer buf
  (dvGetUint 1 s'.scratch true, s')

/-- `readInt8`. -/
def readInt8 (s : DataViewValueReader) (buf : List Nat) : Int × DataViewValueReader :=
  let s' := s.loadBuffer buf
  (dvGetInt 1 s'.scratch true, s')

/-- `readUint16`. -/
def readUint16 (s : DataViewValueReader) (buf : List Nat) (endian : Endian) :
    Nat × DataViewValueReader :=
  let s' := s.loadBuffer buf
  (dvGetUint 2 s'.scratch (endian = Endian.Little), s')

/-- `readInt16`. -/
def readInt16 (s : DataViewValueReader) (buf : List Nat) (endian : Endian) :
    Int × DataViewValueReader :=
  let s' := s.loadBuffer buf
  (dvGetInt 2 s'.scratch (endian = Endian.Little), s')

/-- `readUint32`. -/
def readUint32 (s : DataViewValueReader) (buf : List Nat) (endian : Endian) :
    Nat × DataViewValueReader :=
  let s' := s.loadBuffer buf
  (dvGetUint 4 s'.scratch (endian = Endian.Little), s')

/-- `readInt32`. -/
def readInt32 (s : DataViewValueReader) (buf : List Nat) (endian : Endian) :
    Int × DataViewValueReader :=
  let s' := s.loadBuffer buf
  (dvGetInt 4 s'.scratch (endian = Endian.Little), s')

/-- `readUint64`. -/
def readUint64 (s : DataViewValueReader) (buf : List Nat) (endian : Endian) :
    Nat × DataViewValueReader :=
  let s' := s.loadBuffer buf
  (dvGetUint 8 s'.scratch (endian = Endian.Little), s')

/-- `readInt64`. -/
def readInt64 (s : DataViewValueReader) (buf : List Nat) (endian : Endian) :
    Int × DataViewValueReader :=
  let s' := s.loadBuffer buf
  (dvGetInt 8 s'.scratch (endian = Endian.Little), s')

end DataViewValueReader

/-! ## PerformanceValueReader

Routes 8/16-bit operations to a `BitOpsValueReader` (stateless) and
32/64-bit operations to an owned `DataViewValueReader`. -/

/-- The `PerformanceValueReader` instance state: its owned
`DataViewValueReader`. -/
structure PerformanceValueReader where
  dv : DataViewValueReader
deriving Repr, DecidableEq

namespace PerformanceValueReader

/-- A freshly constructed instance. -/
def init : PerformanceValueReader := ⟨DataViewValueReader.init⟩

/-- `readUint8`: via `BitOpsValueReader`. -/
def readUint8 (s : PerformanceValueReader) (buf : List Nat) :
    Nat × PerformanceValueReader :=
  (BitOpsValueReader.readUint8 buf, s)

/-- `readInt8`: via `BitOpsValueReader`. -/
def readInt8 (s : PerformanceValueReader) (buf : List Nat) :
    Int × PerformanceValueReader :=
  (BitOpsValueReader.readInt8 buf, s)

/-- `readUint16`: via `BitOpsValueReader`. -/
def readUint16 (s : PerformanceValueReader) (buf : List Nat) (endian : Endian) :
    Nat × PerformanceValueReader :=
  (BitOpsValueReader.readUint16 buf endian, s)

/-- `readInt16`: via `BitOpsValueReader`. -/
def readInt16 (s : PerformanceValueReader) (buf : List Nat) (endian : Endian) :
    Int × PerformanceValueReader :=
  (BitOpsValueReader.readInt16 buf endian, s)

/-- `readUint32`: via the owned `DataViewValueReader`. -/
def readUint32 (s : PerformanceValueReader) (buf : List Nat) (endian : Endian) :
    Nat × PerformanceValueReader :=
  let (v, dv') := s.dv.readUint32 buf endian
  (v, ⟨dv'⟩)

/-- `readInt32`: via the owned `DataViewValueReader`. -/
def readInt32 (s : PerformanceValueReader) (buf : List Nat) (endian : Endian) :
    Int × PerformanceValueReader :=
  let (v, dv') := s.dv.readInt32 buf endian
  (v, ⟨dv'⟩)

/-- `readUint64`: via the owned `DataViewValueReader`. -/
def readUint64 (s : PerformanceValueReader) (buf : List Nat) (endian : Endian) :
    Nat × PerformanceValueReader :=
  let (v, dv') := s.dv.readUint64 buf endian
  (v, ⟨dv'⟩)

/-- `readInt64`: via the owned `DataViewValueReader`. -/
def readInt64 (s : PerformanceValueReader) (buf : List Nat) (endian : Endian) :
    Int × PerformanceValueReader :=
  let (v, dv') := s.dv.readInt64 buf endian
  (v, ⟨dv'⟩)

end PerformanceValueReader

/-! ## Buffer-source coercion (`buffer.ts`) -/

/-- A JavaScript `BufferSource` argument: a raw `ArrayBuffer`, a
`Uint8Array` view, any other `ArrayBuffer`-backed view (`DataView` or a
non-byte typed array, described by its underlying buffer's bytes plus
the view's `byteOffset`/`byteLength`), or an unsupported value. -/
inductive BufferSource where
  | arrayBuffer (data : List Nat)
  | uint8Array (buffer : List Nat) (byteOffset : Nat) (byteLength : Nat)
  | otherView (buffer : List Nat) (byteOffset : Nat) (byteLength : Nat)
  | unsupported
deriving Repr, DecidableEq

/-- The bytes a `BufferSource` view itself exposes. -/
def BufferSource.viewBytes : BufferSource → List Nat
  | .arrayBuffer d => d
  | .uint8Array b off len => (b.drop off).take len
  | .otherView b off len => (b.drop off).take len
  | .unsupported => []

/-- `uint8ArrayFromBufferSource`: an `ArrayBuffer` is wrapped whole, a
`Uint8Array` is returned as-is, any other `ArrayBuffer`-backed view is
replaced by `new Uint8Array(bufferSource.buffer)` — a view over the
*entire* underlying buffer — and anything else throws a `TypeError`
(modelled as `none`). -/
def uint8ArrayFromBufferSource : BufferSource → Option (List Nat)
  | .arrayBuffer d => some d
  | .uint8Array b off len => some ((b.drop off).take len)
  | .otherView b _ _ => some b
  | .unsupported => none

/-! ## StreamReader (`reader.ts`)

The incremental buffering state machine.  A `ReaderState` holds the
chunks the underlying `ReadableStream` will still yield (`source`), the
internal buffer, the read cursor (`bufferOffset`) and the `bytesRead`
counter.  Pulling from an exhausted source yields `done`.  A thrown
`Unexpected end of stream` error is modelled as `none` paired with the
state as mutated up to the throw. -/

/-- The state of a `StreamReader` together with its chunk source. -/
structure ReaderState where
  source : List (List Nat)
  buffer : List Nat
  bufferOffset : Nat
  bytesRead : Nat
deriving Repr, DecidableEq

namespace ReaderState

/-- A freshly constructed reader over a stream that will yield the given
chunks. -/
def init (chunks : List (List Nat)) : ReaderState :=
  ⟨chunks, [], 0, 0⟩

/-- Well-formedness: the cursor never passes the end of the buffer. -/
def wf (st : ReaderState) : Prop := st.bufferOffset ≤ st.buffer.length

instance (st : ReaderState) : Decidable st.wf := by
  unfold wf; infer_instance

/-- The unread bytes the reader will still deliver: the unread suffix of
the buffer followed by every chunk the source will still yield. -/
def flatRem (st : ReaderState) : List Nat :=
  st.buffer.drop st.bufferOffset ++ st.source.flatten

/-- The `while` loop of `ensureBufferFilledToAtLeast`, recursing on the
source: while fewer than `n` unread bytes are buffered, pull a chunk and
copy-append it; pulling from the exhausted source throws (`false`). -/
def fillLoop (offset n : Nat) :
    List (List Nat) → List Nat → Bool × List Nat × List (List Nat)
  | src, buffer =>
    if (buffer.length : Int) - offset < n then
      match src with
      | [] => (false, buffer, [])
      | c :: rest => fillLoop offset n rest (buffer ++ c)
    else (true, buffer, src)

/-- `ensureBufferFilledToAtLeast(count)`: `false` models the thrown
`Unexpected end of stream` error; the returned state reflects all chunks
appended before the throw. -/
def ensureBufferFilledToAtLeast (st : ReaderState) (n : Nat) :
    Bool × ReaderState :=
  match fillLoop st.bufferOffset n st.source st.buffer with
  | (ok, buf, src) => (ok, { st with buffer := buf, source := src })

/-- `trimBuffer()`: once the cursor passes half the buffer
(`bufferOffset > buffer.byteLength >>> 1`), drop the consumed prefix and
reset the cursor. -/
def trimBuffer (st : ReaderState) : ReaderState :=
  if st.buffer.length >>> 1 < st.bufferOffset then
    { st with buffer := st.buffer.drop st.bufferOffset, bufferOffset := 0 }
  else st

/-- `read(len)`: ensure `len` unread bytes, slice them out, advance the
cursor and the `bytesRead` counter, then compact.  `none` models the
propagated end-of-stream throw (cursor and counter untouched). -/
def read (st : ReaderState) (n : Nat) : Option (List Nat) × ReaderState :=
  match st.ensureBufferFilledToAtLeast n with
  | (false, st') => (none, st')
  | (true, st') =>
    let value := (st'.buffer.drop st'.bufferOffset).take n
    let st'' := { st' with
      bufferOffset := st'.bufferOffset + n
      bytesRead := st'.bytesRead + n }
    (some value, st''.trimBuffer)

/-- `readUntilEof()`: concatenate the unread buffer suffix with every
chunk pulled until `done`, add the total to `bytesRead`, and move the
cursor to the end of the buffer. -/
def readUntilEof (st : ReaderState) : List Nat × ReaderState :=
  let chunks := st.buffer.drop st.bufferOffset :: st.source
  let out := chunks.flatten
  (out, { st with
    source := []
    bufferOffset := st.buffer.length
    bytesRead := st.bytesRead + out.length })

/-- The `read` of the uncompacted reader variant (`stream.ts`), used as
the comparison point for compaction transparency: identical to `read`
but never calls `trimBuffer`. -/
def readNoTrim (st : ReaderState) (n : Nat) : Option (List Nat) × ReaderState :=
  match st.ensureBufferFilledToAtLeast n with
  | (false, st') => (none, st')
  | (true, st') =>
    let value := (st'.buffer.drop st'.bufferOffset).take n
    let st'' := { st' with
      bufferOffset := st'.bufferOffset + n
      bytesRead := st'.bytesRead + n }
    (some value, st'')

end ReaderState

/-! ### Read-sequence harness

Runs a list of `read(n)` requests, collecting the returned byte arrays;
`none` when some request throws.  Typed reads (`readUint16`, ...) are
`read(W/8)` followed by a pure `ValueReader` call, so sequences of
`read` calls cover them. -/

/-- Run a sequence of `read` requests with the given read operation. -/
def runReadsWith (f : ReaderState → Nat → Option (List Nat) × ReaderState) :
    ReaderState → List Nat → Option (List (List Nat) × ReaderState)
  | st, [] => some ([], st)
  | st, n :: ns =>
    match f st n with
    | (some v, st') =>
      (runReadsWith f st' ns).map fun (vs, st'') => (v :: vs, st'')
    | (none, _) => none

/-- Run a sequence of `read` requests on the real reader. -/
def runReads : ReaderState → List Nat → Option (List (List Nat) × ReaderState) :=
  runReadsWith ReaderState.read

/-- Run a sequence of `read` requests on the never-compacting reader. -/
def runReadsNoTrim : ReaderState → List Nat → Option (List (List Nat) × ReaderState) :=
  runReadsWith ReaderState.readNoTrim

/-- The observable outcome of a run: the returned byte arrays and the
final `bytesRead` counter. -/
def observe (r : Option (List (List Nat) × ReaderState)) :
    Option (List (List Nat) × Nat) :=
  r.map fun (vs, st) => (vs, st.bytesRead)

/-! ## Arithmetic toolkit -/

/-- Bitwise or of a shifted value with a small value is addition. -/
theorem lor_shift_add {i b : Nat} (a : Nat) (hb : b < 2 ^ i) :
    a <<< i ||| b = a * 2 ^ i + b := by
  rw [Nat.shiftLeft_eq, Nat.mul_comm a (2 ^ i), ← Nat.mul_add_lt_is_or hb a]

theorem valLE_lt : ∀ {bs : List Nat}, (∀ b ∈ bs, b < 256) →
    valLE bs < 256 ^ bs.length
  | [], _ => by simp [valLE]
  | b :: bs, h => by
    have hb : b < 256 := h b (List.mem_cons_self ..)
    have ih := valLE_lt (fun x hx => h x (List.mem_cons_of_mem _ hx))
    simp only [valLE, List.length_cons, pow_succ]
    calc b + 256 * valLE bs < 256 * (valLE bs + 1) := by omega
      _ ≤ 256 * 256 ^ bs.length := by
          exact Nat.mul_le_mul_left _ (by omega)
      _ = 256 ^ bs.length * 256 := Nat.mul_comm ..

theorem valBE_lt : ∀ {bs : List Nat}, (∀ b ∈ bs, b < 256) →
    valBE bs < 256 ^ bs.length
  | [], _ => by simp [valBE]
  | b :: bs, h => by
    have hb : b < 256 := h b (List.mem_cons_self ..)
    have ih := valBE_lt (fun x hx => h x (List.mem_cons_of_mem _ hx))
    simp only [valBE, List.length_cons, pow_succ]
    calc b * 256 ^ bs.length + valBE bs
        < b * 256 ^ bs.length + 256 ^ bs.length := by omega
      _ = (b + 1) * 256 ^ bs.length := by ring
      _ ≤ 256 * 256 ^ bs.length := Nat.mul_le_mul_right _ (by omega)
      _ = 256 ^ bs.length * 256 := Nat.mul_comm ..

theorem valLE_append (bs cs : List Nat) :
    valLE (bs ++ cs) = valLE bs + 256 ^ bs.length * valLE cs := by
  induction bs with
  | nil => simp [valLE]
  | cons b bs ih => simp [valLE, ih, List.length_cons, pow_succ]; ring

theorem valBE_append (bs cs : List Nat) :
    valBE (bs ++ cs) = valBE bs * 256 ^ cs.length + valBE cs := by
  induction bs with
  | nil => simp [valBE]
  | cons b bs ih =>
    simp [valBE, ih, List.length_cons, List.length_append, pow_add]; ring

theorem valBE_reverse (bs : List Nat) : valBE bs.reverse = valLE bs := by
  induction bs with
  | nil => rfl
  | cons b bs ih =>
    simp only [List.reverse_cons, valBE_append, valLE, valBE, ih,
      List.length_cons, List.length_nil, pow_succ, pow_zero]
    ring

@[simp] theorem digitsLE_length (w v : Nat) : (digitsLE w v).length = w := by
  induction w generalizing v with
  | zero => rfl
  | succ w ih => simp [digitsLE, ih]

theorem digitsLE_lt (w v : Nat) : ∀ b ∈ digitsLE w v, b < 256 := by
  induction w generalizing v with
  | zero => simp [digitsLE]
  | succ w ih =>
    intro b hb
    simp only [digitsLE, List.mem_cons] at hb
    rcases hb with h | h
    · omega
    · exact ih _ b h

theorem valLE_digitsLE (w v : Nat) : valLE (digitsLE w v) = v % 256 ^ w := by
  induction w generalizing v with
  | zero => simp [digitsLE, valLE, Nat.mod_one]
  | succ w ih =>
    simp only [digitsLE, valLE, ih, pow_succ]
    rw [Nat.mul_comm (256 ^ w) 256, Nat.mod_mul]

theorem valBE_digitsLE_reverse (w v : Nat) :
    valBE (digitsLE w v).reverse = v % 256 ^ w := by
  rw [valBE_reverse, valLE_digitsLE]

/-! ## BitOpsValueReader decode lemmas -/

namespace BitOpsValueReader

theorem bufLEAux_eq : ∀ (bs : List Nat) (i r : Nat),
    (∀ b ∈ bs, b < 256) → 8 * (i + bs.length) ≤ 32 → r < 2 ^ (8 * i) →
    bufLEAux bs i r = r + valLE bs * 2 ^ (8 * i)
  | [], i, r, _, _, _ => by simp [bufLEAux, valLE]
  | b :: bs, i, r, h, hlen, hr => by
    have hb : b < 256 := h b (List.mem_cons_self ..)
    simp only [List.length_cons] at hlen
    have hi : 8 * i % 32 = 8 * i := Nat.mod_eq_of_lt (by omega)
    have hpow : (2 : Nat) ^ (8 * i) * 256 = 2 ^ (8 * (i + 1)) := by
      rw [show 8 * (i + 1) = 8 * i + 8 by ring, pow_add]
      norm_num
    have hsmall : b * 2 ^ (8 * i) < 2 ^ 32 := by
      calc b * 2 ^ (8 * i) < 256 * 2 ^ (8 * i) :=
            mul_lt_mul_of_pos_right hb (Nat.pos_pow_of_pos _ (by norm_num))
        _ = 2 ^ (8 * (i + 1)) := by rw [Nat.mul_comm]; exact hpow
        _ ≤ 2 ^ 32 := Nat.pow_le_pow_right (by norm_num) (by omega)
    have hmod : b <<< (8 * i % 32) % 2 ^ 32 = b * 2 ^ (8 * i) := by
      rw [hi, Nat.shiftLeft_eq, Nat.mod_eq_of_lt hsmall]
    have hor : r ||| b <<< (8 * i % 32) % 2 ^ 32 = b * 2 ^ (8 * i) + r := by
      rw [hmod, Nat.lor_comm]
      calc b * 2 ^ (8 * i) ||| r = b <<< (8 * i) ||| r := by
            rw [Nat.shiftLeft_eq]
        _ = b * 2 ^ (8 * i) + r := lor_shift_add b hr
    have hr' : b * 2 ^ (8 * i) + r < 2 ^ (8 * (i + 1)) := by
      calc b * 2 ^ (8 * i) + r < (b + 1) * 2 ^ (8 * i) := by
            have : b * 2 ^ (8 * i) + 2 ^ (8 * i) = (b + 1) * 2 ^ (8 * i) := by ring
            omega
        _ ≤ 256 * 2 ^ (8 * i) := Nat.mul_le_mul_right _ (by omega)
        _ = 2 ^ (8 * (i + 1)) := by rw [Nat.mul_comm]; exact hpow
    have ih := bufLEAux_eq bs (i + 1) (b * 2 ^ (8 * i) + r)
      (fun x hx => h x (List.mem_cons_of_mem _ hx)) (by omega) hr'
    rw [bufLEAux, hor, ih, valLE]
    rw [show 8 * (i + 1) = 8 * i + 8 by ring, pow_add]
    push_cast
    ring

theorem foldBE_eq : ∀ (bs : List Nat) (r : Nat),
    (∀ b ∈ bs, b < 256) → 8 * bs.length ≤ 32 → r < 2 ^ (32 - 8 * bs.length) →
    bs.foldl (fun r b => (r <<< 8) % 2 ^ 32 ||| b) r =
      r * 256 ^ bs.length + valBE bs
  | [], r, _, _, _ => by simp [valBE]
  | b :: bs, r, h, hlen, hr => by
    have hb : b < 256 := h b (List.mem_cons_self ..)
    simp only [List.length_cons] at hlen hr
    have hexp : (2 : Nat) ^ (32 - 8 * (bs.length + 1)) * 256 =
        2 ^ (32 - 8 * bs.length) := by
      rw [show (256 : Nat) = 2 ^ 8 by norm_num, ← pow_add]
      congr 1
      omega
    have hrr : r * 256 < 2 ^ (32 - 8 * bs.length) := by
      calc r * 256 < 2 ^ (32 - 8 * (bs.length + 1)) * 256 :=
            mul_lt_mul_of_pos_right hr (by norm_num)
        _ = _ := hexp
    have hlt32 : r * 256 < 2 ^ 32 :=
      lt_of_lt_of_le hrr (Nat.pow_le_pow_right (by norm_num) (by omega))
    have e8 : r <<< 8 = r * 256 := by rw [Nat.shiftLeft_eq]
    have emod : (r <<< 8) % 2 ^ 32 = r <<< 8 := by
      rw [e8]; exact Nat.mod_eq_of_lt hlt32
    have hstep : (r <<< 8) % 2 ^ 32 ||| b = r * 256 + b := by
      rw [emod]
      have hlor := lor_shift_add r (show b < 2 ^ 8 by omega)
      rw [hlor]
      norm_num
    have hr' : r * 256 + b < 2 ^ (32 - 8 * bs.length) := by
      have h1 : (r + 1) * 256 ≤ 2 ^ (32 - 8 * (bs.length + 1)) * 256 :=
        Nat.mul_le_mul_right _ (by omega)
      omega
    have ih := foldBE_eq bs (r * 256 + b)
      (fun x hx => h x (List.mem_cons_of_mem _ hx)) (by omega) hr'
    rw [List.foldl_cons]
    rw [hstep, ih, valBE, List.length_cons, pow_succ]
    ring

theorem bufferToUnsignedNumber_little (bs : List Nat)
    (h : ∀ b ∈ bs, b < 256) (hlen : bs.length ≤ 4) :
    bufferToUnsignedNumber bs .Little = valLE bs := by
  have := bufLEAux_eq bs 0 0 h (by omega) (by norm_num)
  simpa [bufferToUnsignedNumber] using this

theorem bufferToUnsignedNumber_big (bs : List Nat)
    (h : ∀ b ∈ bs, b < 256) (hlen : bs.length ≤ 4) :
    bufferToUnsignedNumber bs .Big = valBE bs := by
  have := foldBE_eq bs 0 h (by omega) (Nat.pos_pow_of_pos _ (by norm_num))
  simpa [bufferToUnsignedNumber] using this

end BitOpsValueReader

namespace BitOpsValueReader

theorem toSignedNumber_eq (u bits : Nat) (h0 : 0 < bits) (h32 : bits < 32) :
    toSignedNumber u bits = toSigned (u % 2 ^ bits) bits := by
  have hbits : bits % 32 = bits := Nat.mod_eq_of_lt h32
  have hshift : (32 - bits) % 32 = 32 - bits := Nat.mod_eq_of_lt (by omega)
  have hmask : (1 <<< (bits % 32)) % 2 ^ 32 - 1 = 2 ^ bits - 1 := by
    rw [hbits, Nat.shiftLeft_eq, Nat.one_mul,
      Nat.mod_eq_of_lt (Nat.pow_lt_pow_right (by norm_num) h32)]
  set m := u % 2 ^ bits with hm
  have hmlt : m < 2 ^ bits := Nat.mod_lt _ (Nat.pos_pow_of_pos _ (by norm_num))
  have hand : u &&& ((1 <<< (bits % 32)) % 2 ^ 32 - 1) = m := by
    rw [hmask, Nat.and_pow_two_sub_one_eq_mod]
  have hsum : bits + (32 - bits) = 32 := by omega
  have hpowsum : (2 : Nat) ^ bits * 2 ^ (32 - bits) = 2 ^ 32 := by
    rw [← pow_add, hsum]
  have hxlt : m * 2 ^ (32 - bits) < 2 ^ 32 := by
    calc m * 2 ^ (32 - bits) < 2 ^ bits * 2 ^ (32 - bits) :=
          mul_lt_mul_of_pos_right hmlt (Nat.pos_pow_of_pos _ (by norm_num))
      _ = 2 ^ 32 := hpowsum
  have hx : m <<< ((32 - bits) % 32) % 2 ^ 32 = m * 2 ^ (32 - bits) := by
    rw [hshift, Nat.shiftLeft_eq, Nat.mod_eq_of_lt hxlt]
  have hsplit : (2 : Nat) ^ (bits - 1) * 2 ^ (32 - bits) = 2 ^ 31 := by
    rw [← pow_add]
    congr 1
    omega
  rw [toSignedNumber, hand, hx, hshift]
  by_cases hcase : 2 ^ (bits - 1) ≤ m
  · have hge : 2 ^ 31 ≤ m * 2 ^ (32 - bits) := by
      calc (2 : Nat) ^ 31 = 2 ^ (bits - 1) * 2 ^ (32 - bits) := hsplit.symm
        _ ≤ m * 2 ^ (32 - bits) := Nat.mul_le_mul_right _ hcase
    have ht : toInt32 (m * 2 ^ (32 - bits)) =
        (m : Int) * 2 ^ (32 - bits) - 2 ^ 32 := by
      rw [toInt32, Nat.mod_eq_of_lt hxlt, toSigned, if_pos hge]
      push_cast
      ring
    rw [ht, toSigned, if_pos hcase]
    have hfact : (m : Int) * 2 ^ (32 - bits) - 2 ^ 32 =
        ((m : Int) - 2 ^ bits) * 2 ^ (32 - bits) := by
      have : ((2 : Int) ^ bits) * 2 ^ (32 - bits) = 2 ^ 32 := by
        exact_mod_cast hpowsum
      linear_combination this
    rw [hfact, Int.mul_fdiv_cancel _ (by positivity)]
  · have hlt31 : m * 2 ^ (32 - bits) < 2 ^ 31 := by
      calc m * 2 ^ (32 - bits) < 2 ^ (bits - 1) * 2 ^ (32 - bits) :=
            mul_lt_mul_of_pos_right (by omega) (Nat.pos_pow_of_pos _ (by norm_num))
        _ = 2 ^ 31 := hsplit
    have ht : toInt32 (m * 2 ^ (32 - bits)) = (m : Int) * 2 ^ (32 - bits) := by
      rw [toInt32, Nat.mod_eq_of_lt hxlt, toSigned, if_neg (by omega)]
      push_cast
      ring
    rw [ht, toSigned, if_neg hcase, Int.mul_fdiv_cancel _ (by positivity)]

end BitOpsValueReader

namespace BitOpsValueReader

theorem bufferToUnsignedBigInt_big (b0 b1 b2 b3 b4 b5 b6 b7 : Nat)
    (h : ∀ b ∈ [b0, b1, b2, b3, b4, b5, b6, b7], b < 256) :
    bufferToUnsignedBigInt [b0, b1, b2, b3, b4, b5, b6, b7] .Big =
      valBE [b0, b1, b2, b3, b4, b5, b6, b7] := by
  have h03 : ∀ b ∈ [b0, b1, b2, b3], b < 256 := by
    intro b hb; apply h; simp at hb ⊢; tauto
  have h47 : ∀ b ∈ [b4, b5, b6, b7], b < 256 := by
    intro b hb; apply h; simp at hb ⊢; tauto
  have e03 : bufferToUnsignedNumber [b0, b1, b2, b3] .Big =
      valBE [b0, b1, b2, b3] :=
    bufferToUnsignedNumber_big _ h03 (by simp)
  have e47 : bufferToUnsignedNumber [b4, b5, b6, b7] .Big =
      valBE [b4, b5, b6, b7] :=
    bufferToUnsignedNumber_big _ h47 (by simp)
  have hlt : valBE [b4, b5, b6, b7] < 2 ^ 32 := by
    have := valBE_lt h47
    norm_num at this
    norm_num
    exact this
  have happ : valBE [b0, b1, b2, b3, b4, b5, b6, b7] =
      valBE [b0, b1, b2, b3] * 2 ^ 32 + valBE [b4, b5, b6, b7] := by
    have := valBE_append [b0, b1, b2, b3] [b4, b5, b6, b7]
    norm_num at this
    norm_num
    exact this
  show bigBEAux [b0, b1, b2, b3, b4, b5, b6, b7] 0 = _
  rw [bigBEAux]
  norm_num
  rw [bigBEAux]
  norm_num
  rw [bigBEAux, e03, e47, lor_shift_add _ hlt, happ]

theorem bufferToUnsignedBigInt_little (b0 b1 b2 b3 b4 b5 b6 b7 : Nat)
    (h : ∀ b ∈ [b0, b1, b2, b3, b4, b5, b6, b7], b < 256) :
    bufferToUnsignedBigInt [b0, b1, b2, b3, b4, b5, b6, b7] .Little =
      valLE [b0, b1, b2, b3, b4, b5, b6, b7] := by
  have h03 : ∀ b ∈ [b0, b1, b2, b3], b < 256 := by
    intro b hb; apply h; simp at hb ⊢; tauto
  have h47 : ∀ b ∈ [b4, b5, b6, b7], b < 256 := by
    intro b hb; apply h; simp at hb ⊢; tauto
  have e03 : bufferToUnsignedNumber [b0, b1, b2, b3] .Little =
      valLE [b0, b1, b2, b3] :=
    bufferToUnsignedNumber_little _ h03 (by simp)
  have e47 : bufferToUnsignedNumber [b4, b5, b6, b7] .Little =
      valLE [b4, b5, b6, b7] :=
    bufferToUnsignedNumber_little _ h47 (by simp)
  have hlt : valLE [b0, b1, b2, b3] < 2 ^ 32 := by
    have := valLE_lt h03
    norm_num at this
    norm_num
    exact this
  have happ : valLE [b0, b1, b2, b3, b4, b5, b6, b7] =
      valLE [b0, b1, b2, b3] + 2 ^ 32 * valLE [b4, b5, b6, b7] := by
    have := valLE_append [b0, b1, b2, b3] [b4, b5, b6, b7]
    norm_num at this
    norm_num
    exact this
  show bigLEAux [b0, b1, b2, b3, b4, b5, b6, b7] 0 0 = _
  rw [bigLEAux]
  norm_num
  rw [bigLEAux]
  norm_num
  rw [bigLEAux, e03, e47, Nat.lor_comm, lor_shift_add _ hlt, happ]
  ring

end BitOpsValueReader

namespace BitOpsValueReader

theorem toInt32_eq_toSigned {u : Nat} (h : u < 2 ^ 32) :
    toInt32 u = toSigned u 32 := by
  rw [toInt32, Nat.mod_eq_of_lt h]

theorem readInt64_eq (buf : List Nat) (e : Endian)
    (h : bufferToUnsignedBigInt buf e < 2 ^ 64) :
    readInt64 buf e = toSigned (bufferToUnsignedBigInt buf e) 64 := by
  set u := bufferToUnsignedBigInt buf e with hu
  have hmask : u &&& (2 ^ 64 - 1) = u := by
    rw [Nat.and_pow_two_sub_one_eq_mod, Nat.mod_eq_of_lt h]
  have h63 : (1 : Nat) <<< 63 = 2 ^ 63 := by
    rw [Nat.shiftLeft_eq, Nat.one_mul]
  have hq : u / 2 ^ 63 < 2 :=
    Nat.div_lt_of_lt_mul (by norm_num at h ⊢; omega)
  have hdiv : 2 ^ 63 ≤ u ↔ 1 ≤ u / 2 ^ 63 := by
    rw [Nat.le_div_iff_mul_le (Nat.pos_pow_of_pos _ (by norm_num)),
      Nat.one_mul]
  have hpos : (0 : Nat) < 2 ^ 63 := Nat.pos_pow_of_pos _ (by norm_num)
  have hbit : (u &&& 1 <<< 63 ≠ 0) ↔ 2 ^ 63 ≤ u := by
    rw [h63, Nat.and_two_pow]
    rcases hb : u.testBit 63 with _ | _ <;>
      rw [Nat.testBit_to_div_mod] at hb
    · simp only [decide_eq_false_iff_not] at hb
      have hlt : u < 2 ^ 63 := by
        by_contra hc
        push_neg at hc
        have := hdiv.mp hc
        omega
      simp only [Bool.toNat_false, Nat.zero_mul, ne_eq, not_true_eq_false,
        false_iff, not_le]
      exact hlt
    · simp only [decide_eq_true_eq] at hb
      have hge := hdiv.mpr (by omega)
      simp only [Bool.toNat_true, Nat.one_mul, ne_eq]
      constructor
      · intro _
        exact hge
      · intro _
        exact hpos.ne'
  rw [readInt64, toSigned]
  simp only [← hu, hmask]
  by_cases hcase : 2 ^ 63 ≤ u
  · rw [if_pos (hbit.mpr hcase), if_pos (by omega)]
  · rw [if_neg (fun hc => hcase (hbit.mp hc)), if_neg (by omega)]

end BitOpsValueReader

/-! ## DataViewValueReader decode lemmas -/

namespace DataViewValueReader

theorem scratch_loadBuffer (s : DataViewValueReader) (buf : List Nat) :
    (s.loadBuffer buf).scratch = (buf ++ s.scratch.drop buf.length).take 8 := rfl

theorem dvGetUint_loadBuffer (s : DataViewValueReader) (buf : List Nat)
    (w : Nat) (hw : w ≤ 8) (hlen : buf.length = w) (little : Bool) :
    dvGetUint w (s.loadBuffer buf).scratch little =
      if little then valLE buf else valBE buf := by
  have htake : (s.loadBuffer buf).scratch.take w = buf := by
    rw [scratch_loadBuffer, List.take_take, Nat.min_eq_left hw,
      List.take_left' hlen]
  rw [dvGetUint, htake]

theorem dvGetInt_loadBuffer (s : DataViewValueReader) (buf : List Nat)
    (w : Nat) (hw : w ≤ 8) (hlen : buf.length = w) (little : Bool) :
    dvGetInt w (s.loadBuffer buf).scratch little =
      toSigned (if little then valLE buf else valBE buf) (8 * w) := by
  rw [dvGetInt, dvGetUint_loadBuffer s buf w hw hlen little]

end DataViewValueReader

/-! ## Two's-complement lemmas -/

theorem toSigned_of_lt {u k : Nat} (h : u < 2 ^ (k - 1)) :
    toSigned u k = (u : Int) := by
  rw [toSigned, if_neg (by omega)]

theorem toSigned_emod (k : Nat) (hk : 0 < k) (v : Int)
    (h1 : -(2 ^ (k - 1)) ≤ v) (h2 : v < 2 ^ (k - 1)) :
    toSigned ((v % ((2 ^ k : Nat) : Int)).toNat) k = v := by
  have hcast : ((2 ^ k : Nat) : Int) = (2 : Int) ^ k := by push_cast; ring
  have hpow : ((2 : Int) ^ (k - 1)) * 2 = 2 ^ k := by
    rw [← pow_succ]
    congr 1
    omega
  have hcastk : ((2 ^ (k - 1) : Nat) : Int) = (2 : Int) ^ (k - 1) := by
    push_cast; ring
  rcases le_or_lt 0 v with hv | hv
  · have hmod : v % ((2 ^ k : Nat) : Int) = v := by
      apply Int.emod_eq_of_lt hv
      rw [hcast]
      omega
    rw [hmod, toSigned, if_neg]
    · exact Int.toNat_of_nonneg hv
    · intro hc
      have hc' : ((2 ^ (k - 1) : Nat) : Int) ≤ (v.toNat : Int) := by
        exact_mod_cast hc
      rw [Int.toNat_of_nonneg hv, hcastk] at hc'
      omega
  · have hmod : v % ((2 ^ k : Nat) : Int) = v + 2 ^ k := by
      have e1 : (v + (2 : Int) ^ k * 1) % ((2 ^ k : Nat) : Int) =
          v % ((2 ^ k : Nat) : Int) := by
        rw [hcast]
        exact @Int.add_mul_emod_self_left v ((2 : Int) ^ k) 1
      have e2 : (v + (2 : Int) ^ k) % ((2 ^ k : Nat) : Int) = v + 2 ^ k := by
        apply Int.emod_eq_of_lt (by omega)
        rw [hcast]
        omega
      calc v % ((2 ^ k : Nat) : Int)
          = (v + (2 : Int) ^ k * 1) % ((2 ^ k : Nat) : Int) := e1.symm
        _ = (v + (2 : Int) ^ k) % ((2 ^ k : Nat) : Int) := by ring_nf
        _ = v + 2 ^ k := e2
    have hnn : (0 : Int) ≤ v + 2 ^ k := by omega
    rw [hmod, toSigned, if_pos]
    · rw [Int.toNat_of_nonneg hnn]
      ring
    · have : ((2 ^ (k - 1) : Nat) : Int) ≤ ((v + 2 ^ k).toNat : Int) := by
        rw [Int.toNat_of_nonneg hnn, hcastk]
        omega
      exact_mod_cast this

/-! ## Endian-directed value of an exact-width buffer -/

/-- The mathematical value of a byte buffer in the given byte order: the
canonical decode against which all implementations are compared. -/
def endianVal (e : Endian) (bs : List Nat) : Nat :=
  match e with
  | .Little => valLE bs
  | .Big => valBE bs

theorem endianVal_lt {bs : List Nat} (e : Endian) (h : ∀ b ∈ bs, b < 256) :
    endianVal e bs < 256 ^ bs.length := by
  cases e with
  | Little => exact valLE_lt h
  | Big => exact valBE_lt h

/-! ## dvSetUint byte facts -/

@[simp] theorem dvSetUint_length (w v : Nat) (little : Bool) :
    (dvSetUint w v little).length = w := by
  rw [dvSetUint]
  cases little <;> simp

theorem dvSetUint_bytes_lt (w v : Nat) (little : Bool) :
    ∀ b ∈ dvSetUint w v little, b < 256 := by
  rw [dvSetUint]
  cases little <;> simp <;> intro b hb
  · exact digitsLE_lt w v b hb
  · exact digitsLE_lt w v b hb

/-- The value stored by `setUintW` in order `e`, decoded in order `e`,
is the value mod `2^(8w)`. -/
theorem endianVal_dvSetUint (w v : Nat) (e : Endian) :
    endianVal e (dvSetUint w v (e = Endian.Little)) = v % 256 ^ w := by
  cases e with
  | Little =>
    simp only [endianVal, dvSetUint, decide_True, if_pos]
    exact valLE_digitsLE w v
  | Big =>
    simp only [endianVal, dvSetUint]
    norm_num
    exact valBE_digitsLE_reverse w v

/-! ## Per-operation decode characterizations -/

namespace BitOpsValueReader

theorem readUint8_spec (b0 : Nat) : readUint8 [b0] = b0 := rfl

theorem readUint16_spec (bs : List Nat) (e : Endian)
    (h : ∀ b ∈ bs, b < 256) (hlen : bs.length = 2) :
    readUint16 bs e = endianVal e bs := by
  cases e with
  | Little => exact bufferToUnsignedNumber_little bs h (by omega)
  | Big => exact bufferToUnsignedNumber_big bs h (by omega)

theorem readUint32_spec (bs : List Nat) (e : Endian)
    (h : ∀ b ∈ bs, b < 256) (hlen : bs.length = 4) :
    readUint32 bs e = endianVal e bs := by
  cases e with
  | Little => exact bufferToUnsignedNumber_little bs h (by omega)
  | Big => exact bufferToUnsignedNumber_big bs h (by omega)

theorem readUint64_spec (bs : List Nat) (e : Endian)
    (h : ∀ b ∈ bs, b < 256) (hlen : bs.length = 8) :
    readUint64 bs e = endianVal e bs := by
  rcases bs with _ | ⟨b0, _ | ⟨b1, _ | ⟨b2, _ | ⟨b3, _ | ⟨b4, _ | ⟨b5,
    _ | ⟨b6, _ | ⟨b7, _ | ⟨b8, tl⟩⟩⟩⟩⟩⟩⟩⟩⟩ <;>
    simp only [List.length_cons, List.length_nil] at hlen <;> try omega
  cases e with
  | Little => exact bufferToUnsignedBigInt_little b0 b1 b2 b3 b4 b5 b6 b7 h
  | Big => exact bufferToUnsignedBigInt_big b0 b1 b2 b3 b4 b5 b6 b7 h

theorem readInt8_spec (b0 : Nat) (h : b0 < 256) :
    readInt8 [b0] = toSigned b0 8 := by
  rw [readInt8]
  show toSignedNumber b0 8 = _
  rw [toSignedNumber_eq b0 8 (by norm_num) (by norm_num)]
  congr 1
  norm_num
  omega

theorem readInt16_spec (bs : List Nat) (e : Endian)
    (h : ∀ b ∈ bs, b < 256) (hlen : bs.length = 2) :
    readInt16 bs e = toSigned (endianVal e bs) 16 := by
  have hv := readUint16_spec bs e h hlen
  have hlt : endianVal e bs < 2 ^ 16 := by
    have := endianVal_lt e h
    rw [hlen] at this
    norm_num at this ⊢
    exact this
  rw [readInt16]
  show toSignedNumber (bufferToUnsignedNumber bs e) 16 = _
  rw [show bufferToUnsignedNumber bs e = endianVal e bs from hv,
    toSignedNumber_eq _ 16 (by norm_num) (by norm_num),
    Nat.mod_eq_of_lt hlt]

theorem readInt32_spec (bs : List Nat) (e : Endian)
    (h : ∀ b ∈ bs, b < 256) (hlen : bs.length = 4) :
    readInt32 bs e = toSigned (endianVal e bs) 32 := by
  have hv := readUint32_spec bs e h hlen
  have hlt : endianVal e bs < 2 ^ 32 := by
    have := endianVal_lt e h
    rw [hlen] at this
    norm_num at this ⊢
    exact this
  rw [readInt32, readUint32] at *
  rw [hv, toInt32_eq_toSigned hlt]

theorem readInt64_spec (bs : List Nat) (e : Endian)
    (h : ∀ b ∈ bs, b < 256) (hlen : bs.length = 8) :
    readInt64 bs e = toSigned (endianVal e bs) 64 := by
  have hv := readUint64_spec bs e h hlen
  have hlt : endianVal e bs < 2 ^ 64 := by
    have := endianVal_lt e h
    rw [hlen] at this
    norm_num at this ⊢
    exact this
  rw [readInt64_eq bs e (by rw [show bufferToUnsignedBigInt bs e = endianVal e bs from hv]; exact hlt),
    show bufferToUnsignedBigInt bs e = endianVal e bs from hv]

end BitOpsValueReader

namespace DataViewValueReader

theorem dv_readUint8_spec (s : DataViewValueReader) (buf : List Nat)
    (hlen : buf.length = 1) : (s.readUint8 buf).1 = valLE buf := by
  rw [readUint8]
  exact dvGetUint_loadBuffer s buf 1 (by norm_num) hlen true

theorem dv_readInt8_spec (s : DataViewValueReader) (buf : List Nat)
    (hlen : buf.length = 1) : (s.readInt8 buf).1 = toSigned (valLE buf) 8 := by
  rw [readInt8]
  have := dvGetInt_loadBuffer s buf 1 (by norm_num) hlen true
  simpa using this

theorem dv_readUint16_spec (s : DataViewValueReader) (buf : List Nat)
    (e : Endian) (hlen : buf.length = 2) :
    (s.readUint16 buf e).1 = endianVal e buf := by
  rw [readUint16]
  have := dvGetUint_loadBuffer s buf 2 (by norm_num) hlen (e = Endian.Little)
  rw [this]
  cases e <;> simp [endianVal]

theorem dv_readInt16_spec (s : DataViewValueReader) (buf : List Nat)
    (e : Endian) (hlen : buf.length = 2) :
    (s.readInt16 buf e).1 = toSigned (endianVal e buf) 16 := by
  rw [readInt16]
  have := dvGetInt_loadBuffer s buf 2 (by norm_num) hlen (e = Endian.Little)
  rw [show (8 : Nat) * 2 = 16 by norm_num] at this
  rw [this]
  cases e <;> simp [endianVal]

theorem dv_readUint32_spec (s : DataViewValueReader) (buf : List Nat)
    (e : Endian) (hlen : buf.length = 4) :
    (s.readUint32 buf e).1 = endianVal e buf := by
  rw [readUint32]
  have := dvGetUint_loadBuffer s buf 4 (by norm_num) hlen (e = Endian.Little)
  rw [this]
  cases e <;> simp [endianVal]

theorem dv_readInt32_spec (s : DataViewValueReader) (buf : List Nat)
    (e : Endian) (hlen : buf.length = 4) :
    (s.readInt32 buf e).1 = toSigned (endianVal e buf) 32 := by
  rw [readInt32]
  have := dvGetInt_loadBuffer s buf 4 (by norm_num) hlen (e = Endian.Little)
  rw [show (8 : Nat) * 4 = 32 by norm_num] at this
  rw [this]
  cases e <;> simp [endianVal]

theorem dv_readUint64_spec (s : DataViewValueReader) (buf : List Nat)
    (e : Endian) (hlen : buf.length = 8) :
    (s.readUint64 buf e).1 = endianVal e buf := by
  rw [readUint64]
  have := dvGetUint_loadBuffer s buf 8 (by norm_num) hlen (e = Endian.Little)
  rw [this]
  cases e <;> simp [endianVal]

theorem dv_readInt64_spec (s : DataViewValueReader) (buf : List Nat)
    (e : Endian) (hlen : buf.length = 8) :
    (s.readInt64 buf e).1 = toSigned (endianVal e buf) 64 := by
  rw [readInt64]
  have := dvGetInt_loadBuffer s buf 8 (by norm_num) hlen (e = Endian.Little)
  rw [show (8 : Nat) * 8 = 64 by norm_num] at this
  rw [this]
  cases e <;> simp [endianVal]

end DataViewValueReader

/-! ## Width-generic roundtrip helpers -/

theorem h256pow (w : Nat) : (256 : Nat) ^ w = 2 ^ (8 * w) := by
  rw [show (256 : Nat) = 2 ^ 8 by norm_num, ← pow_mul]

theorem dvSetUint_endianVal_of_lt (w v : Nat) (e : Endian)
    (hv : v < 2 ^ (8 * w)) :
    endianVal e (dvSetUint w v (e = Endian.Little)) = v := by
  rw [endianVal_dvSetUint, h256pow, Nat.mod_eq_of_lt hv]

theorem dvSetInt_toNat_lt (w : Nat) (v : Int) :
    (v % ((2 ^ (8 * w) : Nat) : Int)).toNat < 2 ^ (8 * w) := by
  have hpos : (0 : Int) < ((2 ^ (8 * w) : Nat) : Int) := by positivity
  have hlt := Int.emod_lt_of_pos v hpos
  have h0 := Int.emod_nonneg v hpos.ne'
  omega

theorem dvSetInt_signed_roundtrip (w : Nat) (hw : 0 < w) (v : Int) (e : Endian)
    (h1 : -(2 ^ (8 * w - 1)) ≤ v) (h2 : v < 2 ^ (8 * w - 1)) :
    toSigned (endianVal e (dvSetInt w v (e = Endian.Little))) (8 * w) = v := by
  rw [dvSetInt, dvSetUint_endianVal_of_lt w _ e (dvSetInt_toNat_lt w v)]
  exact toSigned_emod (8 * w) (by omega) v h1 h2

/-! ## PerformanceValueReader routing -/

namespace PerformanceValueReader

theorem readUint8_route (s : PerformanceValueReader) (buf : List Nat) :
    (s.readUint8 buf).1 = BitOpsValueReader.readUint8 buf := rfl

theorem readInt8_route (s : PerformanceValueReader) (buf : List Nat) :
    (s.readInt8 buf).1 = BitOpsValueReader.readInt8 buf := by
  simp only [readInt8]

theorem readUint16_route (s : PerformanceValueReader) (buf : List Nat)
    (e : Endian) : (s.readUint16 buf e).1 = BitOpsValueReader.readUint16 buf e :=
  rfl

theorem readInt16_route (s : PerformanceValueReader) (buf : List Nat)
    (e : Endian) : (s.readInt16 buf e).1 = BitOpsValueReader.readInt16 buf e := by
  simp only [readInt16]

theorem readUint32_route (s : PerformanceValueReader) (buf : List Nat)
    (e : Endian) : (s.readUint32 buf e).1 = (s.dv.readUint32 buf e).1 := rfl

theorem readInt32_route (s : PerformanceValueReader) (buf : List Nat)
    (e : Endian) : (s.readInt32 buf e).1 = (s.dv.readInt32 buf e).1 := rfl

theorem readUint64_route (s : PerformanceValueReader) (buf : List Nat)
    (e : Endian) : (s.readUint64 buf e).1 = (s.dv.readUint64 buf e).1 := rfl

theorem readInt64_route (s : PerformanceValueReader) (buf : List Nat)
    (e : Endian) : (s.readInt64 buf e).1 = (s.dv.readInt64 buf e).1 := rfl

end PerformanceValueReader

/-! ## Width-1 list characterizations -/

theorem BitOpsValueReader.readUint8_list (bs : List Nat)
    (hlen : bs.length = 1) : BitOpsValueReader.readUint8 bs = valLE bs := by
  rcases bs with _ | ⟨b0, _ | ⟨b1, tl⟩⟩ <;>
    simp only [List.length_cons, List.length_nil] at hlen <;> try omega
  simp [BitOpsValueReader.readUint8, valLE]

theorem BitOpsValueReader.readInt8_list (bs : List Nat)
    (h : ∀ b ∈ bs, b < 256) (hlen : bs.length = 1) :
    BitOpsValueReader.readInt8 bs = toSigned (valLE bs) 8 := by
  rcases bs with _ | ⟨b0, _ | ⟨b1, tl⟩⟩ <;>
    simp only [List.length_cons, List.length_nil] at hlen <;> try omega
  have hb : b0 < 256 := h b0 (List.mem_cons_self ..)
  rw [BitOpsValueReader.readInt8_spec b0 hb]
  simp [valLE]

@[simp] theorem dvSetInt_length (w : Nat) (v : Int) (little : Bool) :
    (dvSetInt w v little).length = w := by
  rw [dvSetInt]
  exact dvSetUint_length _ _ _

theorem dvSetInt_bytes_lt (w : Nat) (v : Int) (little : Bool) :
    ∀ b ∈ dvSetInt w v little, b < 256 := by
  rw [dvSetInt]
  exact dvSetUint_bytes_lt _ _ _

/-- C1.  For every width W ∈ {8,16,32,64}, signedness, and byte order,
decoding is the inverse of encoding: writing a representable value with
the `StreamWriter` width-W operation and decoding the W produced bytes
with the corresponding operation of any of the three `ValueReader`
implementations (in any instance state) yields the value back —
including the width boundaries, covered since the bounds are exactly the
representable ranges. -/
theorem c1_encode_decode_roundtrip (e : Endian) (s : DataViewValueReader)
    (t : PerformanceValueReader) :
    (∀ v : Nat, v < 2 ^ 8 →
      BitOpsValueReader.readUint8 (StreamWriter.writeUint8 v) = v ∧
      (s.readUint8 (StreamWriter.writeUint8 v)).1 = v ∧
      (t.readUint8 (StreamWriter.writeUint8 v)).1 = v) ∧
    (∀ v : Int, -(2 ^ 7) ≤ v → v < 2 ^ 7 →
      BitOpsValueReader.readInt8 (StreamWriter.writeInt8 v) = v ∧
      (s.readInt8 (StreamWriter.writeInt8 v)).1 = v ∧
      (t.readInt8 (StreamWriter.writeInt8 v)).1 = v) ∧
    (∀ v : Nat, v < 2 ^ 16 →
      BitOpsValueReader.readUint16 (StreamWriter.writeUint16 v e) e = v ∧
      (s.readUint16 (StreamWriter.writeUint16 v e) e).1 = v ∧
      (t.readUint16 (StreamWriter.writeUint16 v e) e).1 = v) ∧
    (∀ v : Int, -(2 ^ 15) ≤ v → v < 2 ^ 15 →
      BitOpsValueReader.readInt16 (StreamWriter.writeInt16 v e) e = v ∧
      (s.readInt16 (StreamWriter.writeInt16 v e) e).1 = v ∧
      (t.readInt16 (StreamWriter.writeInt16 v e) e).1 = v) ∧
    (∀ v : Nat, v < 2 ^ 32 →
      BitOpsValueReader.readUint32 (StreamWriter.writeUint32 v e) e = v ∧
      (s.readUint32 (StreamWriter.writeUint32 v e) e).1 = v ∧
      (t.readUint32 (StreamWriter.writeUint32 v e) e).1 = v) ∧
    (∀ v : Int, -(2 ^ 31) ≤ v → v < 2 ^ 31 →
      BitOpsValueReader.readInt32 (StreamWriter.writeInt32 v e) e = v ∧
      (s.readInt32 (StreamWriter.writeInt32 v e) e).1 = v ∧
      (t.readInt32 (StreamWriter.writeInt32 v e) e).1 = v) ∧
    (∀ v : Nat, v < 2 ^ 64 →
      BitOpsValueReader.readUint64 (StreamWriter.writeUint64 v e) e = v ∧
      (s.readUint64 (StreamWriter.writeUint64 v e) e).1 = v ∧
      (t.readUint64 (StreamWriter.writeUint64 v e) e).1 = v) ∧
    (∀ v : Int, -(2 ^ 63) ≤ v → v < 2 ^ 63 →
      BitOpsValueReader.readInt64 (StreamWriter.writeInt64 v e) e = v ∧
      (s.readInt64 (StreamWriter.writeInt64 v e) e).1 = v ∧
      (t.readInt64 (StreamWriter.writeInt64 v e) e).1 = v) := by
  refine ⟨?_, ?_, ?_, ?_, ?_, ?_, ?_, ?_⟩
  · intro v hv
    have hmod : v % 256 = v := Nat.mod_eq_of_lt (by norm_num at hv ⊢; exact hv)
    refine ⟨?_, ?_, ?_⟩
    · rw [StreamWriter.writeUint8, BitOpsValueReader.readUint8_spec, hmod]
    · rw [StreamWriter.writeUint8,
        DataViewValueReader.dv_readUint8_spec s _ (by simp)]
      simp [valLE]
      omega
    · rw [StreamWriter.writeUint8, PerformanceValueReader.readUint8_route,
        BitOpsValueReader.readUint8_spec, hmod]
  · intro v h1 h2
    have hlen := dvSetInt_length 1 v true
    have hb := dvSetInt_bytes_lt 1 v true
    have hrt := dvSetInt_signed_roundtrip 1 (by norm_num) v Endian.Little h1 h2
    refine ⟨?_, ?_, ?_⟩
    · rw [StreamWriter.writeInt8, BitOpsValueReader.readInt8_list _ hb hlen]
      exact hrt
    · rw [StreamWriter.writeInt8, DataViewValueReader.dv_readInt8_spec s _ hlen]
      exact hrt
    · rw [StreamWriter.writeInt8, PerformanceValueReader.readInt8_route,
        BitOpsValueReader.readInt8_list _ hb hlen]
      exact hrt
  · intro v hv
    have hlen := dvSetUint_length 2 v (e = Endian.Little)
    have hb := dvSetUint_bytes_lt 2 v (e = Endian.Little)
    have hval := dvSetUint_endianVal_of_lt 2 v e hv
    refine ⟨?_, ?_, ?_⟩
    · rw [StreamWriter.writeUint16,
        BitOpsValueReader.readUint16_spec _ e hb hlen, hval]
    · rw [StreamWriter.writeUint16,
        DataViewValueReader.dv_readUint16_spec s _ e hlen, hval]
    · rw [StreamWriter.writeUint16, PerformanceValueReader.readUint16_route,
        BitOpsValueReader.readUint16_spec _ e hb hlen, hval]
  · intro v h1 h2
    have hlen := dvSetInt_length 2 v (e = Endian.Little)
    have hb := dvSetInt_bytes_lt 2 v (e = Endian.Little)
    have hrt := dvSetInt_signed_roundtrip 2 (by norm_num) v e h1 h2
    refine ⟨?_, ?_, ?_⟩
    · rw [StreamWriter.writeInt16,
        BitOpsValueReader.readInt16_spec _ e hb hlen]
      exact hrt
    · rw [StreamWriter.writeInt16,
        DataViewValueReader.dv_readInt16_spec s _ e hlen]
      exact hrt
    · rw [StreamWriter.writeInt16, PerformanceValueReader.readInt16_route,
        BitOpsValueReader.readInt16_spec _ e hb hlen]
      exact hrt
  · intro v hv
    have hlen := dvSetUint_length 4 v (e = Endian.Little)
    have hb := dvSetUint_bytes_lt 4 v (e = Endian.Little)
    have hval := dvSetUint_endianVal_of_lt 4 v e hv
    refine ⟨?_, ?_, ?_⟩
    · rw [StreamWriter.writeUint32,
        BitOpsValueReader.readUint32_spec _ e hb hlen, hval]
    · rw [StreamWriter.writeUint32,
        DataViewValueReader.dv_readUint32_spec s _ e hlen, hval]
    · rw [StreamWriter.writeUint32, PerformanceValueReader.readUint32_route,
        DataViewValueReader.dv_readUint32_spec t.dv _ e hlen, hval]
  · intro v h1 h2
    have hlen := dvSetInt_length 4 v (e = Endian.Little)
    have hb := dvSetInt_bytes_lt 4 v (e = Endian.Little)
    have hrt := dvSetInt_signed_roundtrip 4 (by norm_num) v e h1 h2
    refine ⟨?_, ?_, ?_⟩
    · rw [StreamWriter.writeInt32,
        BitOpsValueReader.readInt32_spec _ e hb hlen]
      exact hrt
    · rw [StreamWriter.writeInt32,
        DataViewValueReader.dv_readInt32_spec s _ e hlen]
      exact hrt
    · rw [StreamWriter.writeInt32, PerformanceValueReader.readInt32_route,
        DataViewValueReader.dv_readInt32_spec t.dv _ e hlen]
      exact hrt
  · intro v hv
    have hlen := dvSetUint_length 8 v (e = Endian.Little)
    have hb := dvSetUint_bytes_lt 8 v (e = Endian.Little)
    have hval := dvSetUint_endianVal_of_lt 8 v e hv
    refine ⟨?_, ?_, ?_⟩
    · rw [StreamWriter.writeUint64,
        BitOpsValueReader.readUint64_spec _ e hb hlen, hval]
    · rw [StreamWriter.writeUint64,
        DataViewValueReader.dv_readUint64_spec s _ e hlen, hval]
    · rw [StreamWriter.writeUint64, PerformanceValueReader.readUint64_route,
        DataViewValueReader.dv_readUint64_spec t.dv _ e hlen, hval]
  · intro v h1 h2
    have hlen := dvSetInt_length 8 v (e = Endian.Little)
    have hb := dvSetInt_bytes_lt 8 v (e = Endian.Little)
    have hrt := dvSetInt_signed_roundtrip 8 (by norm_num) v e h1 h2
    refine ⟨?_, ?_, ?_⟩
    · rw [StreamWriter.writeInt64,
        BitOpsValueReader.readInt64_spec _ e hb hlen]
      exact hrt
    · rw [StreamWriter.writeInt64,
        DataViewValueReader.dv_readInt64_spec s _ e hlen]
      exact hrt
    · rw [StreamWriter.writeInt64, PerformanceValueReader.readInt64_route,
        DataViewValueReader.dv_readInt64_spec t.dv _ e hlen]
      exact hrt

/-! ## Small membership helpers -/

theorem mem_lt_two {b0 b1 : Nat} (h0 : b0 < 256) (h1 : b1 < 256) :
    ∀ b ∈ [b0, b1], b < 256 := by
  intro b hb
  simp only [List.mem_cons, List.not_mem_nil, or_false] at hb
  rcases hb with rfl | rfl <;> assumption

theorem mem_lt_four {b0 b1 b2 b3 : Nat} (h0 : b0 < 256) (h1 : b1 < 256)
    (h2 : b2 < 256) (h3 : b3 < 256) : ∀ b ∈ [b0, b1, b2, b3], b < 256 := by
  intro b hb
  simp only [List.mem_cons, List.not_mem_nil, or_false] at hb
  rcases hb with rfl | rfl | rfl | rfl <;> assumption

theorem mem_lt_eight {b0 b1 b2 b3 b4 b5 b6 b7 : Nat} (h0 : b0 < 256)
    (h1 : b1 < 256) (h2 : b2 < 256) (h3 : b3 < 256) (h4 : b4 < 256)
    (h5 : b5 < 256) (h6 : b6 < 256) (h7 : b7 < 256) :
    ∀ b ∈ [b0, b1, b2, b3, b4, b5, b6, b7], b < 256 := by
  intro b hb
  simp only [List.mem_cons, List.not_mem_nil, or_false] at hb
  rcases hb with rfl | rfl | rfl | rfl | rfl | rfl | rfl | rfl <;> assumption

/-- C2.  For every exact-width input buffer and byte order, the three
`ValueReader` implementations — `BitOpsValueReader` (stateless),
`DataViewValueReader`, and `PerformanceValueReader` (each in any
instance state) — return identical results for all eight operations. -/
theorem c2_strategy_equivalence (e : Endian) (s : DataViewValueReader)
    (t : PerformanceValueReader) :
    (∀ b0 : Nat, b0 < 256 →
      BitOpsValueReader.readUint8 [b0] = (s.readUint8 [b0]).1 ∧
      BitOpsValueReader.readUint8 [b0] = (t.readUint8 [b0]).1) ∧
    (∀ b0 : Nat, b0 < 256 →
      BitOpsValueReader.readInt8 [b0] = (s.readInt8 [b0]).1 ∧
      BitOpsValueReader.readInt8 [b0] = (t.readInt8 [b0]).1) ∧
    (∀ b0 b1 : Nat, b0 < 256 → b1 < 256 →
      BitOpsValueReader.readUint16 [b0, b1] e = (s.readUint16 [b0, b1] e).1 ∧
      BitOpsValueReader.readUint16 [b0, b1] e = (t.readUint16 [b0, b1] e).1) ∧
    (∀ b0 b1 : Nat, b0 < 256 → b1 < 256 →
      BitOpsValueReader.readInt16 [b0, b1] e = (s.readInt16 [b0, b1] e).1 ∧
      BitOpsValueReader.readInt16 [b0, b1] e = (t.readInt16 [b0, b1] e).1) ∧
    (∀ b0 b1 b2 b3 : Nat, b0 < 256 → b1 < 256 → b2 < 256 → b3 < 256 →
      BitOpsValueReader.readUint32 [b0, b1, b2, b3] e =
        (s.readUint32 [b0, b1, b2, b3] e).1 ∧
      BitOpsValueReader.readUint32 [b0, b1, b2, b3] e =
        (t.readUint32 [b0, b1, b2, b3] e).1) ∧
    (∀ b0 b1 b2 b3 : Nat, b0 < 256 → b1 < 256 → b2 < 256 → b3 < 256 →
      BitOpsValueReader.readInt32 [b0, b1, b2, b3] e =
        (s.readInt32 [b0, b1, b2, b3] e).1 ∧
      BitOpsValueReader.readInt32 [b0, b1, b2, b3] e =
        (t.readInt32 [b0, b1, b2, b3] e).1) ∧
    (∀ b0 b1 b2 b3 b4 b5 b6 b7 : Nat, b0 < 256 → b1 < 256 → b2 < 256 →
        b3 < 256 → b4 < 256 → b5 < 256 → b6 < 256 → b7 < 256 →
      BitOpsValueReader.readUint64 [b0, b1, b2, b3, b4, b5, b6, b7] e =
        (s.readUint64 [b0, b1, b2, b3, b4, b5, b6, b7] e).1 ∧
      BitOpsValueReader.readUint64 [b0, b1, b2, b3, b4, b5, b6, b7] e =
        (t.readUint64 [b0, b1, b2, b3, b4, b5, b6, b7] e).1) ∧
    (∀ b0 b1 b2 b3 b4 b5 b6 b7 : Nat, b0 < 256 → b1 < 256 → b2 < 256 →
        b3 < 256 → b4 < 256 → b5 < 256 → b6 < 256 → b7 < 256 →
      BitOpsValueReader.readInt64 [b0, b1, b2, b3, b4, b5, b6, b7] e =
        (s.readInt64 [b0, b1, b2, b3, b4, b5, b6, b7] e).1 ∧
      BitOpsValueReader.readInt64 [b0, b1, b2, b3, b4, b5, b6, b7] e =
        (t.readInt64 [b0, b1, b2, b3, b4, b5, b6, b7] e).1) := by
  refine ⟨?_, ?_, ?_, ?_, ?_, ?_, ?_, ?_⟩
  · intro b0 h0
    rw [BitOpsValueReader.readUint8_spec,
      DataViewValueReader.dv_readUint8_spec s _ (by simp),
      PerformanceValueReader.readUint8_route,
      BitOpsValueReader.readUint8_spec]
    simp [valLE]
  · intro b0 h0
    rw [BitOpsValueReader.readInt8_spec b0 h0,
      DataViewValueReader.dv_readInt8_spec s _ (by simp),
      PerformanceValueReader.readInt8_route,
      BitOpsValueReader.readInt8_spec b0 h0]
    simp [valLE]
  · intro b0 b1 h0 h1
    rw [BitOpsValueReader.readUint16_spec _ e (mem_lt_two h0 h1) (by simp),
      DataViewValueReader.dv_readUint16_spec s _ e (by simp),
      PerformanceValueReader.readUint16_route,
      BitOpsValueReader.readUint16_spec _ e (mem_lt_two h0 h1) (by simp)]
    simp
  · intro b0 b1 h0 h1
    rw [BitOpsValueReader.readInt16_spec _ e (mem_lt_two h0 h1) (by simp),
      DataViewValueReader.dv_readInt16_spec s _ e (by simp),
      PerformanceValueReader.readInt16_route,
      BitOpsValueReader.readInt16_spec _ e (mem_lt_two h0 h1) (by simp)]
    simp
  · intro b0 b1 b2 b3 h0 h1 h2 h3
    rw [BitOpsValueReader.readUint32_spec _ e (mem_lt_four h0 h1 h2 h3)
        (by simp),
      DataViewValueReader.dv_readUint32_spec s _ e (by simp),
      PerformanceValueReader.readUint32_route,
      DataViewValueReader.dv_readUint32_spec t.dv _ e (by simp)]
    simp
  · intro b0 b1 b2 b3 h0 h1 h2 h3
    rw [BitOpsValueReader.readInt32_spec _ e (mem_lt_four h0 h1 h2 h3)
        (by simp),
      DataViewValueReader.dv_readInt32_spec s _ e (by simp),
      PerformanceValueReader.readInt32_route,
      DataViewValueReader.dv_readInt32_spec t.dv _ e (by simp)]
    simp
  · intro b0 b1 b2 b3 b4 b5 b6 b7 h0 h1 h2 h3 h4 h5 h6 h7
    rw [BitOpsValueReader.readUint64_spec _ e
        (mem_lt_eight h0 h1 h2 h3 h4 h5 h6 h7) (by simp),
      DataViewValueReader.dv_readUint64_spec s _ e (by simp),
      PerformanceValueReader.readUint64_route,
      DataViewValueReader.dv_readUint64_spec t.dv _ e (by simp)]
    simp
  · intro b0 b1 b2 b3 b4 b5 b6 b7 h0 h1 h2 h3 h4 h5 h6 h7
    rw [BitOpsValueReader.readInt64_spec _ e
        (mem_lt_eight h0 h1 h2 h3 h4 h5 h6 h7) (by simp),
      DataViewValueReader.dv_readInt64_spec s _ e (by simp),
      PerformanceValueReader.readInt64_route,
      DataViewValueReader.dv_readInt64_spec t.dv _ e (by simp)]
    simp

/-- C6.  For every 8-byte buffer (bytes < 256) and both byte orders,
`bufferToUnsignedBigInt` — which decodes in 4-byte sub-chunks via the
32-bit `bufferToUnsignedNumber` and recombines them by shifted
accumulation — returns exactly the mathematical unsigned integer whose
base-256 digits are the buffer's bytes in the given order. -/
theorem c6_bufferToUnsignedBigInt_exact (b0 b1 b2 b3 b4 b5 b6 b7 : Nat)
    (h0 : b0 < 256) (h1 : b1 < 256) (h2 : b2 < 256) (h3 : b3 < 256)
    (h4 : b4 < 256) (h5 : b5 < 256) (h6 : b6 < 256) (h7 : b7 < 256) :
    BitOpsValueReader.bufferToUnsignedBigInt
        [b0, b1, b2, b3, b4, b5, b6, b7] .Big =
      valBE [b0, b1, b2, b3, b4, b5, b6, b7] ∧
    BitOpsValueReader.bufferToUnsignedBigInt
        [b0, b1, b2, b3, b4, b5, b6, b7] .Little =
      valLE [b0, b1, b2, b3, b4, b5, b6, b7] :=
  ⟨BitOpsValueReader.bufferToUnsignedBigInt_big b0 b1 b2 b3 b4 b5 b6 b7
      (mem_lt_eight h0 h1 h2 h3 h4 h5 h6 h7),
    BitOpsValueReader.bufferToUnsignedBigInt_little b0 b1 b2 b3 b4 b5 b6 b7
      (mem_lt_eight h0 h1 h2 h3 h4 h5 h6 h7)⟩

/-- C6 witness: all-0xFF bytes (top bit of every 32-bit sub-chunk set)
decode to `2^64 - 1` in both orders. -/
theorem c6_witness :
    BitOpsValueReader.bufferToUnsignedBigInt
        [255, 255, 255, 255, 255, 255, 255, 255] .Big =
      valBE [255, 255, 255, 255, 255, 255, 255, 255] ∧
    BitOpsValueReader.bufferToUnsignedBigInt
        [255, 255, 255, 255, 255, 255, 255, 255] .Little =
      valLE [255, 255, 255, 255, 255, 255, 255, 255] :=
  c6_bufferToUnsignedBigInt_exact 255 255 255 255 255 255 255 255
    (by norm_num) (by norm_num) (by norm_num) (by norm_num) (by norm_num)
    (by norm_num) (by norm_num) (by norm_num)

/-- C1 witness: the 64-bit signed minimum round-trips through
`writeInt64`/`readInt64` at a concrete instantiation. -/
theorem c1_witness :
    BitOpsValueReader.readInt64
        (StreamWriter.writeInt64 (-(2 ^ 63)) Endian.Big) Endian.Big =
      -(2 ^ 63) :=
  (((c1_encode_decode_roundtrip Endian.Big DataViewValueReader.init
      PerformanceValueReader.init).2.2.2.2.2.2.2) (-(2 ^ 63))
    (by norm_num) (by norm_num)).1

/-- C2 witness: the three implementations agree on the concrete 8-byte
buffer `FF 00 00 80 7F 01 02 03` in big-endian order. -/
theorem c2_witness :
    BitOpsValueReader.readUint64 [255, 0, 0, 128, 127, 1, 2, 3] Endian.Big =
      (DataViewValueReader.init.readUint64 [255, 0, 0, 128, 127, 1, 2, 3]
        Endian.Big).1 ∧
    BitOpsValueReader.readUint64 [255, 0, 0, 128, 127, 1, 2, 3] Endian.Big =
      (PerformanceValueReader.init.readUint64 [255, 0, 0, 128, 127, 1, 2, 3]
        Endian.Big).1 :=
  ((c2_strategy_equivalence Endian.Big DataViewValueReader.init
      PerformanceValueReader.init).2.2.2.2.2.2.1) 255 0 0 128 127 1 2 3
    (by norm_num) (by norm_num) (by norm_num) (by norm_num) (by norm_num)
    (by norm_num) (by norm_num) (by norm_num)

/-- C10 counterexample: two buffers agreeing on their first 2 bytes give
different `readUint16` results when one buffer is longer, because
`BitOpsValueReader` folds over the whole buffer — so a width-W operation
is *not* a function of only the first W/8 bytes for arbitrary-length
buffers. -/
theorem c10_counterexample :
    ([0, 5, 1] : List Nat).take 2 = ([0, 5] : List Nat).take 2 ∧
    BitOpsValueReader.readUint16 [0, 5] Endian.Big ≠
      BitOpsValueReader.readUint16 [0, 5, 1] Endian.Big := by
  constructor
  · rfl
  · decide

/-- C10 amended: given each call's buffer has exactly the operation's
width, every operation of the three `ValueReader` implementations is a
deterministic function of the buffer and the endian argument alone —
two instances in arbitrary states (in particular, arbitrary leftover
bytes in `DataViewValueReader`'s reused non-zeroed scratch buffer)
return equal results on equal buffers.  (`BitOpsValueReader` is a pure
function of its arguments, so instance state cannot affect it.) -/
theorem c10_amended (e : Endian) (s s' : DataViewValueReader)
    (t t' : PerformanceValueReader) :
    (∀ buf : List Nat, buf.length = 1 →
      (s.readUint8 buf).1 = (s'.readUint8 buf).1 ∧
      (t.readUint8 buf).1 = (t'.readUint8 buf).1) ∧
    (∀ buf : List Nat, buf.length = 1 →
      (s.readInt8 buf).1 = (s'.readInt8 buf).1 ∧
      (t.readInt8 buf).1 = (t'.readInt8 buf).1) ∧
    (∀ buf : List Nat, buf.length = 2 →
      (s.readUint16 buf e).1 = (s'.readUint16 buf e).1 ∧
      (t.readUint16 buf e).1 = (t'.readUint16 buf e).1) ∧
    (∀ buf : List Nat, buf.length = 2 →
      (s.readInt16 buf e).1 = (s'.readInt16 buf e).1 ∧
      (t.readInt16 buf e).1 = (t'.readInt16 buf e).1) ∧
    (∀ buf : List Nat, buf.length = 4 →
      (s.readUint32 buf e).1 = (s'.readUint32 buf e).1 ∧
      (t.readUint32 buf e).1 = (t'.readUint32 buf e).1) ∧
    (∀ buf : List Nat, buf.length = 4 →
      (s.readInt32 buf e).1 = (s'.readInt32 buf e).1 ∧
      (t.readInt32 buf e).1 = (t'.readInt32 buf e).1) ∧
    (∀ buf : List Nat, buf.length = 8 →
      (s.readUint64 buf e).1 = (s'.readUint64 buf e).1 ∧
      (t.readUint64 buf e).1 = (t'.readUint64 buf e).1) ∧
    (∀ buf : List Nat, buf.length = 8 →
      (s.readInt64 buf e).1 = (s'.readInt64 buf e).1 ∧
      (t.readInt64 buf e).1 = (t'.readInt64 buf e).1) := by
  refine ⟨?_, ?_, ?_, ?_, ?_, ?_, ?_, ?_⟩
  · intro buf hlen
    rw [DataViewValueReader.dv_readUint8_spec s _ hlen,
      DataViewValueReader.dv_readUint8_spec s' _ hlen,
      PerformanceValueReader.readUint8_route,
      PerformanceValueReader.readUint8_route]
    simp
  · intro buf hlen
    rw [DataViewValueReader.dv_readInt8_spec s _ hlen,
      DataViewValueReader.dv_readInt8_spec s' _ hlen,
      PerformanceValueReader.readInt8_route,
      PerformanceValueReader.readInt8_route]
    simp
  · intro buf hlen
    rw [DataViewValueReader.dv_readUint16_spec s _ e hlen,
      DataViewValueReader.dv_readUint16_spec s' _ e hlen,
      PerformanceValueReader.readUint16_route,
      PerformanceValueReader.readUint16_route]
    simp
  · intro buf hlen
    rw [DataViewValueReader.dv_readInt16_spec s _ e hlen,
      DataViewValueReader.dv_readInt16_spec s' _ e hlen,
      PerformanceValueReader.readInt16_route,
      PerformanceValueReader.readInt16_route]
    simp
  · intro buf hlen
    rw [DataViewValueReader.dv_readUint32_spec s _ e hlen,
      DataViewValueReader.dv_readUint32_spec s' _ e hlen,
      PerformanceValueReader.readUint32_route,
      PerformanceValueReader.readUint32_route,
      DataViewValueReader.dv_readUint32_spec t.dv _ e hlen,
      DataViewValueReader.dv_readUint32_spec t'.dv _ e hlen]
    simp
  · intro buf hlen
    rw [DataViewValueReader.dv_readInt32_spec s _ e hlen,
      DataViewValueReader.dv_readInt32_spec s' _ e hlen,
      PerformanceValueReader.readInt32_route,
      PerformanceValueReader.readInt32_route,
      DataViewValueReader.dv_readInt32_spec t.dv _ e hlen,
      DataViewValueReader.dv_readInt32_spec t'.dv _ e hlen]
    simp
  · intro buf hlen
    rw [DataViewValueReader.dv_readUint64_spec s _ e hlen,
      DataViewValueReader.dv_readUint64_spec s' _ e hlen,
      PerformanceValueReader.readUint64_route,
      PerformanceValueReader.readUint64_route,
      DataViewValueReader.dv_readUint64_spec t.dv _ e hlen,
      DataViewValueReader.dv_readUint64_spec t'.dv _ e hlen]
    simp
  · intro buf hlen
    rw [DataViewValueReader.dv_readInt64_spec s _ e hlen,
      DataViewValueReader.dv_readInt64_spec s' _ e hlen,
      PerformanceValueReader.readInt64_route,
      PerformanceValueReader.readInt64_route,
      DataViewValueReader.dv_readInt64_spec t.dv _ e hlen,
      DataViewValueReader.dv_readInt64_spec t'.dv _ e hlen]
    simp
/-- C10 amended witness: a `DataViewValueReader` whose scratch holds
leftover `0xFF` bytes from a previous 8-byte read agrees with a freshly
zeroed one on a 2-byte read. -/
theorem c10_witness :
    ((⟨List.replicate 8 255⟩ : DataViewValueReader).readUint16 [18, 52]
        Endian.Big).1 =
      (DataViewValueReader.init.readUint16 [18, 52] Endian.Big).1 ∧
    ((⟨⟨List.replicate 8 255⟩⟩ : PerformanceValueReader).readUint16 [18, 52]
        Endian.Big).1 =
      (PerformanceValueReader.init.readUint16 [18, 52] Endian.Big).1 :=
  ((c10_amended Endian.Big ⟨List.replicate 8 255⟩ DataViewValueReader.init
      ⟨⟨List.replicate 8 255⟩⟩ PerformanceValueReader.init).2.2.1) [18, 52] rfl

/-- C8 counterexample: for a non-`Uint8Array` view with a non-zero
`byteOffset` (here a view selecting only the middle byte of a 3-byte
buffer), `uint8ArrayFromBufferSource` returns the *whole* underlying
buffer, not the view's own bytes. -/
theorem c8_counterexample :
    uint8ArrayFromBufferSource (BufferSource.otherView [1, 2, 3] 1 1) ≠
      some (BufferSource.viewBytes (BufferSource.otherView [1, 2, 3] 1 1)) := by
  decide

/-- C8 amended: `uint8ArrayFromBufferSource` returns all bytes of an
`ArrayBuffer`, returns a `Uint8Array` view unchanged (same length and
contents), returns the bytes of the **entire underlying buffer** for
every other byte-addressable view — coinciding with the view's own
bytes only when the view spans its whole buffer — and fails with a
`TypeError` for unsupported inputs. -/
theorem c8_amended :
    (∀ d : List Nat,
      uint8ArrayFromBufferSource (BufferSource.arrayBuffer d) = some d) ∧
    (∀ (b : List Nat) (off len : Nat),
      uint8ArrayFromBufferSource (BufferSource.uint8Array b off len) =
        some (BufferSource.viewBytes (BufferSource.uint8Array b off len))) ∧
    (∀ (b : List Nat) (off len : Nat),
      uint8ArrayFromBufferSource (BufferSource.otherView b off len) =
        some b) ∧
    (∀ b : List Nat,
      uint8ArrayFromBufferSource (BufferSource.otherView b 0 b.length) =
        some (BufferSource.viewBytes (BufferSource.otherView b 0 b.length))) ∧
    uint8ArrayFromBufferSource BufferSource.unsupported = none := by
  refine ⟨fun d => rfl, fun b off len => rfl, fun b off len => rfl,
    fun b => ?_, rfl⟩
  simp [uint8ArrayFromBufferSource, BufferSource.viewBytes]

/-! ## StreamReader buffering lemmas -/

namespace ReaderState

theorem flatRem_length (st : ReaderState) :
    st.flatRem.length =
      st.buffer.length - st.bufferOffset + st.source.flatten.length := by
  simp [flatRem]

theorem fillLoop_fail (offset n : Nat) :
    ∀ (src : List (List Nat)) (buffer : List Nat),
      offset ≤ buffer.length →
      buffer.length - offset + src.flatten.length < n →
      fillLoop offset n src buffer = (false, buffer ++ src.flatten, [])
  | [], buffer, hw, hlt => by
    simp only [List.flatten_nil, List.length_nil, Nat.add_zero] at hlt
    rw [fillLoop, if_pos (by omega)]
    simp
  | c :: rest, buffer, hw, hlt => by
    simp only [List.flatten_cons, List.length_append] at hlt
    rw [fillLoop, if_pos (by omega)]
    have ih := fillLoop_fail offset n rest (buffer ++ c)
      (by simp only [List.length_append]; omega)
      (by simp only [List.length_append]; omega)
    rw [ih]
    simp

theorem fillLoop_success (offset n : Nat) :
    ∀ (src : List (List Nat)) (buffer : List Nat),
      offset ≤ buffer.length →
      n ≤ buffer.length - offset + src.flatten.length →
      ∃ buf' src',
        fillLoop offset n src buffer = (true, buf', src') ∧
        offset ≤ buf'.length ∧
        n ≤ buf'.length - offset ∧
        buf'.drop offset ++ src'.flatten = buffer.drop offset ++ src.flatten
  | [], buffer, hw, hn => by
    simp only [List.flatten_nil, List.length_nil, Nat.add_zero] at hn
    rw [fillLoop, if_neg (by omega)]
    exact ⟨buffer, [], rfl, hw, by omega, rfl⟩
  | c :: rest, buffer, hw, hn => by
    rw [fillLoop]
    by_cases hg : (buffer.length : Int) - offset < n
    · rw [if_pos hg]
      simp only [List.flatten_cons, List.length_append] at hn
      obtain ⟨buf', src', heq, hw', hn', hflat⟩ :=
        fillLoop_success offset n rest (buffer ++ c)
          (by simp only [List.length_append]; omega)
          (by simp only [List.length_append]; omega)
      refine ⟨buf', src', heq, hw', hn', ?_⟩
      rw [hflat, List.drop_append_of_le_length hw]
      simp
    · rw [if_neg hg]
      exact ⟨buffer, c :: rest, rfl, hw, by omega, rfl⟩

theorem ensureBuffer_success (st : ReaderState) (n : Nat) (hw : st.wf)
    (hn : n ≤ st.flatRem.length) :
    ∃ st', st.ensureBufferFilledToAtLeast n = (true, st') ∧ st'.wf ∧
      st'.bufferOffset = st.bufferOffset ∧ st'.bytesRead = st.bytesRead ∧
      n ≤ st'.buffer.length - st'.bufferOffset ∧ st'.flatRem = st.flatRem := by
  rw [flatRem_length] at hn
  obtain ⟨buf', src', heq, hw', hn', hflat⟩ :=
    fillLoop_success st.bufferOffset n st.source st.buffer hw hn
  refine ⟨{ st with buffer := buf', source := src' }, ?_, hw', rfl, rfl, hn', ?_⟩
  · rw [ensureBufferFilledToAtLeast, heq]
  · rw [flatRem, flatRem]
    exact hflat

theorem ensureBuffer_fail (st : ReaderState) (n : Nat) (hw : st.wf)
    (hn : st.flatRem.length < n) :
    st.ensureBufferFilledToAtLeast n =
      (false, { st with buffer := st.buffer ++ st.source.flatten,
                        source := [] }) := by
  rw [flatRem_length] at hn
  rw [ensureBufferFilledToAtLeast,
    fillLoop_fail st.bufferOffset n st.source st.buffer hw hn]

theorem trimBuffer_wf (st : ReaderState) (hw : st.wf) : st.trimBuffer.wf := by
  rw [trimBuffer]
  split
  · simp [wf]
  · exact hw

theorem trimBuffer_flatRem (st : ReaderState) :
    st.trimBuffer.flatRem = st.flatRem := by
  rw [trimBuffer]
  split
  · simp [flatRem]
  · rfl

theorem trimBuffer_bytesRead (st : ReaderState) :
    st.trimBuffer.bytesRead = st.bytesRead := by
  rw [trimBuffer]
  split <;> rfl

theorem trimBuffer_source (st : ReaderState) :
    st.trimBuffer.source = st.source := by
  rw [trimBuffer]
  split <;> rfl

theorem read_success (st : ReaderState) (n : Nat) (hw : st.wf)
    (hn : n ≤ st.flatRem.length) :
    (st.read n).1 = some (st.flatRem.take n) ∧ (st.read n).2.wf ∧
    (st.read n).2.flatRem = st.flatRem.drop n ∧
    (st.read n).2.bytesRead = st.bytesRead + n := by
  obtain ⟨st', heq, hw', hoff, hbr, havail, hflat⟩ :=
    ensureBuffer_success st n hw hn
  have hAlen : n ≤ (st'.buffer.drop st'.bufferOffset).length := by
    simp only [List.length_drop]
    omega
  have htake : st.flatRem.take n = (st'.buffer.drop st'.bufferOffset).take n := by
    rw [← hflat, flatRem, List.take_append_of_le_length hAlen]
  have hdrop : st.flatRem.drop n =
      (st'.buffer.drop st'.bufferOffset).drop n ++ st'.source.flatten := by
    rw [← hflat, flatRem, List.drop_append_of_le_length hAlen]
  have hw'' : st'.bufferOffset ≤ st'.buffer.length := hw'
  rw [read, heq]
  refine ⟨by rw [htake], ?_, ?_, ?_⟩
  · exact trimBuffer_wf _
      (show st'.bufferOffset + n ≤ st'.buffer.length by omega)
  · rw [trimBuffer_flatRem, flatRem]
    simp only [List.drop_drop]
    rw [hdrop, List.drop_drop]
  · rw [trimBuffer_bytesRead]
    show st'.bytesRead + n = st.bytesRead + n
    omega

theorem read_fail (st : ReaderState) (n : Nat) (hw : st.wf)
    (hn : st.flatRem.length < n) :
    st.read n =
      (none, { st with buffer := st.buffer ++ st.source.flatten,
                       source := [] }) := by
  rw [read, ensureBuffer_fail st n hw hn]

end ReaderState

/-! ## Read-sequence simulation -/

/-- The behavioural contract both `read` variants satisfy relative to
the flat abstraction `flatRem`: a request for at most the remaining
bytes returns exactly their prefix and advances the abstraction; a
larger request throws. -/
def readSpec (f : ReaderState → Nat → Option (List Nat) × ReaderState) : Prop :=
  ∀ (st : ReaderState) (n : Nat), st.wf →
    (n ≤ st.flatRem.length →
      (f st n).1 = some (st.flatRem.take n) ∧ (f st n).2.wf ∧
      (f st n).2.flatRem = st.flatRem.drop n ∧
      (f st n).2.bytesRead = st.bytesRead + n) ∧
    (st.flatRem.length < n → (f st n).1 = none)

theorem read_readSpec : readSpec ReaderState.read := by
  intro st n hw
  refine ⟨fun hn => ReaderState.read_success st n hw hn, fun hn => ?_⟩
  rw [ReaderState.read_fail st n hw hn]

theorem readNoTrim_readSpec : readSpec ReaderState.readNoTrim := by
  intro st n hw
  constructor
  · intro hn
    obtain ⟨st', heq, hw', hoff, hbr, havail, hflat⟩ :=
      ReaderState.ensureBuffer_success st n hw hn
    have hw'' : st'.bufferOffset ≤ st'.buffer.length := hw'
    have hAlen : n ≤ (st'.buffer.drop st'.bufferOffset).length := by
      simp only [List.length_drop]
      omega
    have htake : st.flatRem.take n =
        (st'.buffer.drop st'.bufferOffset).take n := by
      rw [← hflat, ReaderState.flatRem, List.take_append_of_le_length hAlen]
    have hdrop : st.flatRem.drop n =
        (st'.buffer.drop st'.bufferOffset).drop n ++ st'.source.flatten := by
      rw [← hflat, ReaderState.flatRem, List.drop_append_of_le_length hAlen]
    rw [ReaderState.readNoTrim, heq]
    refine ⟨by rw [htake], ?_, ?_, ?_⟩
    · show st'.bufferOffset + n ≤ st'.buffer.length
      omega
    · rw [ReaderState.flatRem]
      simp only [List.drop_drop]
      rw [hdrop, List.drop_drop]
    · show st'.bytesRead + n = st.bytesRead + n
      omega
  · intro hn
    rw [ReaderState.readNoTrim, ReaderState.ensureBuffer_fail st n hw hn]

theorem runReadsWith_congr (f g : ReaderState → Nat → Option (List Nat) × ReaderState)
    (hf : readSpec f) (hg : readSpec g) :
    ∀ (ns : List Nat) (st1 st2 : ReaderState), st1.wf → st2.wf →
      st1.flatRem = st2.flatRem → st1.bytesRead = st2.bytesRead →
      observe (runReadsWith f st1 ns) = observe (runReadsWith g st2 ns)
  | [], st1, st2, h1, h2, hfr, hbr => by
    simp [runReadsWith, observe, hbr]
  | n :: ns, st1, st2, h1, h2, hfr, hbr => by
    rcases le_or_lt n st1.flatRem.length with hn | hn
    · obtain ⟨v1, w1, fr1, br1⟩ := (hf st1 n h1).1 hn
      obtain ⟨v2, w2, fr2, br2⟩ := (hg st2 n h2).1 (by rw [← hfr]; exact hn)
      rcases hfs : f st1 n with ⟨o1, st1'⟩
      rcases hgs : g st2 n with ⟨o2, st2'⟩
      rw [hfs] at v1 w1 fr1 br1
      rw [hgs] at v2 w2 fr2 br2
      simp only at v1 v2 w1 w2 fr1 fr2 br1 br2
      rw [runReadsWith, hfs, runReadsWith, hgs, v1, v2]
      have ih := runReadsWith_congr f g hf hg ns st1' st2' w1 w2
        (by rw [fr1, fr2, hfr]) (by rw [br1, br2, hbr])
      simp only [observe, Option.map_map] at ih ⊢
      rw [← hfr]
      revert ih
      cases runReadsWith f st1' ns <;> cases runReadsWith g st2' ns <;>
        simp [Function.comp]
    · have v1 := (hf st1 n h1).2 hn
      have v2 := (hg st2 n h2).2 (by rw [← hfr]; exact hn)
      rcases hfs : f st1 n with ⟨o1, st1'⟩
      rcases hgs : g st2 n with ⟨o2, st2'⟩
      rw [hfs] at v1
      rw [hgs] at v2
      simp only at v1 v2
      rw [runReadsWith, hfs, runReadsWith, hgs, v1, v2]

theorem runReadsWith_bytesRead
    (f : ReaderState → Nat → Option (List Nat) × ReaderState)
    (hf : readSpec f) :
    ∀ (ns : List Nat) (st : ReaderState), st.wf →
      ∀ vs st', runReadsWith f st ns = some (vs, st') →
        st'.bytesRead = st.bytesRead + ns.sum
  | [], st, hw, vs, st', h => by
    rw [runReadsWith] at h
    simp only [Option.some.injEq, Prod.mk.injEq] at h
    rw [← h.2]
    simp
  | n :: ns, st, hw, vs, st', h => by
    rcases le_or_lt n st.flatRem.length with hn | hn
    · obtain ⟨v1, w1, fr1, br1⟩ := (hf st n hw).1 hn
      rcases hfs : f st n with ⟨o1, st1⟩
      rw [hfs] at v1 w1 fr1 br1
      simp only at v1 w1 fr1 br1
      rw [runReadsWith, hfs, v1] at h
      dsimp only at h
      rcases ho : runReadsWith f st1 ns with _ | ⟨vs2, st2⟩
      · rw [ho] at h
        exact absurd h (by simp)
      · rw [ho] at h
        simp only [Option.map_some', Option.some.injEq, Prod.mk.injEq] at h
        have ihs := runReadsWith_bytesRead f hf ns st1 w1 vs2 st2 ho
        rw [← h.2, ihs, br1, List.sum_cons]
        omega
    · have v1 := (hf st n hw).2 hn
      rcases hfs : f st n with ⟨o1, st1⟩
      rw [hfs] at v1
      simp only at v1
      rw [runReadsWith, hfs, v1] at h
      dsimp only at h
      exact absurd h (by simp)

theorem init_wf (cs : List (List Nat)) : (ReaderState.init cs).wf := by
  simp [ReaderState.init, ReaderState.wf]

theorem init_flatRem (cs : List (List Nat)) :
    (ReaderState.init cs).flatRem = cs.flatten := by
  simp [ReaderState.init, ReaderState.flatRem]

/-- C3.  After any sequence of successful `read(n)` calls, `bytesRead`
equals the sum of the requested byte counts, and both the counter and
the returned byte arrays are identical for any two sources that chunk
the same data differently (observable behaviour depends only on the
concatenation of the chunks). -/
theorem c3_counter_and_chunking_invariance (cs cs' : List (List Nat))
    (h : cs.flatten = cs'.flatten) (ns : List Nat) :
    observe (runReads (ReaderState.init cs) ns) =
      observe (runReads (ReaderState.init cs') ns) ∧
    (∀ vs st', runReads (ReaderState.init cs) ns = some (vs, st') →
      st'.bytesRead = ns.sum) := by
  constructor
  · exact runReadsWith_congr _ _ read_readSpec read_readSpec ns _ _
      (init_wf cs) (init_wf cs')
      (by rw [init_flatRem, init_flatRem, h]) rfl
  · intro vs st' hrun
    have := runReadsWith_bytesRead _ read_readSpec ns _ (init_wf cs)
      vs st' hrun
    simpa [ReaderState.init] using this

/-- C3 witness: one-byte chunks versus a single chunk of the same three
bytes give identical observable results for requests `[2, 1]`. -/
theorem c3_witness :
    observe (runReads (ReaderState.init [[1], [2], [3]]) [2, 1]) =
      observe (runReads (ReaderState.init [[1, 2, 3]]) [2, 1]) :=
  (c3_counter_and_chunking_invariance [[1], [2], [3]] [[1, 2, 3]] rfl
    [2, 1]).1

/-- C5.  Buffer compaction is observably transparent: every run of
`read(n)` requests returns the same byte arrays and `bytesRead` as the
never-compacting reader, and `trimBuffer` only ever drops bytes strictly
before the cursor — when the cursor exceeds half the window it
reallocates the window to the unread suffix and resets the cursor to 0,
otherwise it is the identity — so the unread remainder `flatRem` is
always preserved. -/
theorem c5_compaction_transparency :
    (∀ (cs : List (List Nat)) (ns : List Nat),
      observe (runReads (ReaderState.init cs) ns) =
        observe (runReadsNoTrim (ReaderState.init cs) ns)) ∧
    (∀ st : ReaderState,
      st.trimBuffer.flatRem = st.flatRem ∧
      (st.buffer.length >>> 1 < st.bufferOffset →
        st.trimBuffer.buffer = st.buffer.drop st.bufferOffset ∧
        st.trimBuffer.bufferOffset = 0) ∧
      (¬ st.buffer.length >>> 1 < st.bufferOffset → st.trimBuffer = st)) := by
  constructor
  · intro cs ns
    exact runReadsWith_congr _ _ read_readSpec readNoTrim_readSpec ns _ _
      (init_wf cs) (init_wf cs) rfl rfl
  · intro st
    refine ⟨ReaderState.trimBuffer_flatRem st, ?_, ?_⟩
    · intro hc
      rw [ReaderState.trimBuffer, if_pos hc]
      exact ⟨rfl, rfl⟩
    · intro hc
      rw [ReaderState.trimBuffer, if_neg hc]

/-- C5 witness: a concrete run with compaction matches the
never-compacting run, and a concrete state past the half-way point is
compacted to its unread suffix. -/
theorem c5_witness :
    observe (runReads (ReaderState.init [[1], [2, 3], [4]]) [1, 3]) =
      observe (runReadsNoTrim (ReaderState.init [[1], [2, 3], [4]]) [1, 3]) ∧
    (ReaderState.trimBuffer ⟨[], [1, 2, 3, 4], 3, 3⟩).buffer =
      List.drop 3 [1, 2, 3, 4] :=
  ⟨c5_compaction_transparency.1 [[1], [2, 3], [4]] [1, 3],
    ((c5_compaction_transparency.2 ⟨[], [1, 2, 3, 4], 3, 3⟩).2.1
      (by decide)).1⟩

/-- C9.  `read(0)` succeeds for every reader state — including one whose
source is already exhausted — without pulling from the source (the
source component is unchanged), returns the empty byte array, and
leaves `bytesRead` and the bytes subsequent reads will return (the
whole observable behaviour of any further run) unchanged. -/
theorem c9_read_zero (st : ReaderState) (hw : st.wf) :
    (st.read 0).1 = some [] ∧
    (st.read 0).2.bytesRead = st.bytesRead ∧
    (st.read 0).2.source = st.source ∧
    (st.read 0).2.flatRem = st.flatRem ∧
    ∀ ns, observe (runReads ((st.read 0).2) ns) =
      observe (runReads st ns) := by
  have hw2 : st.bufferOffset ≤ st.buffer.length := hw
  obtain ⟨hv, hw', hfr, hbr⟩ := ReaderState.read_success st 0 hw (by omega)
  rw [List.take_zero] at hv
  rw [List.drop_zero] at hfr
  have hens : st.ensureBufferFilledToAtLeast 0 = (true, st) := by
    rw [ReaderState.ensureBufferFilledToAtLeast, ReaderState.fillLoop.eq_def]
    dsimp only
    rw [if_neg (by push_cast; omega)]
  have hsrc : (st.read 0).2.source = st.source := by
    rw [ReaderState.read, hens]
    dsimp only
    rw [ReaderState.trimBuffer_source]
  refine ⟨hv, by omega, hsrc, hfr, ?_⟩
  intro ns
  exact runReadsWith_congr _ _ read_readSpec read_readSpec ns _ _
    hw' hw hfr (by omega)

/-- C9 witness: `read(0)` on a fresh reader over one pending chunk. -/
theorem c9_witness :
    (ReaderState.read (ReaderState.init [[5]]) 0).1 = some [] ∧
    (ReaderState.read (ReaderState.init [[5]]) 0).2.bytesRead =
      (ReaderState.init [[5]]).bytesRead ∧
    (ReaderState.read (ReaderState.init [[5]]) 0).2.source =
      (ReaderState.init [[5]]).source :=
  ⟨(c9_read_zero (ReaderState.init [[5]]) (by decide)).1,
    (c9_read_zero (ReaderState.init [[5]]) (by decide)).2.1,
    (c9_read_zero (ReaderState.init [[5]]) (by decide)).2.2.1⟩

/-- C4.  When `read(n)` requests more than the unread buffered bytes
plus everything the source will still produce, it fails (`none`, the
thrown `EndOfStream`) rather than returning fewer bytes; on failure the
cursor and `bytesRead` are unchanged and only the pulled chunks remain
appended to the window (source drained); the reader remains usable: any
subsequent `read(m)` with `m` at most the available bytes succeeds and
returns exactly those bytes. -/
theorem c4_end_of_stream (st : ReaderState) (hw : st.wf) (n : Nat)
    (hn : st.flatRem.length < n) :
    (st.read n).1 = none ∧
    (st.read n).2 = { st with buffer := st.buffer ++ st.source.flatten,
                              source := [] } ∧
    (st.read n).2.bufferOffset = st.bufferOffset ∧
    (st.read n).2.bytesRead = st.bytesRead ∧
    ∀ m, m ≤ st.flatRem.length →
      ((st.read n).2.read m).1 = some (st.flatRem.take m) := by
  have hw2 : st.bufferOffset ≤ st.buffer.length := hw
  have hfail := ReaderState.read_fail st n hw hn
  have hw1 : ({ st with buffer := st.buffer ++ st.source.flatten,
                        source := [] } : ReaderState).wf := by
    show st.bufferOffset ≤ (st.buffer ++ st.source.flatten).length
    simp only [List.length_append]
    omega
  have hfr1 : ({ st with buffer := st.buffer ++ st.source.flatten,
                         source := [] } : ReaderState).flatRem = st.flatRem := by
    show (st.buffer ++ st.source.flatten).drop st.bufferOffset ++
        List.flatten [] = st.flatRem
    rw [List.drop_append_of_le_length hw2, ReaderState.flatRem]
    simp
  rw [hfail]
  refine ⟨rfl, rfl, rfl, rfl, ?_⟩
  intro m hm
  have := (ReaderState.read_success _ m hw1 (by rw [hfr1]; exact hm)).1
  rw [this, hfr1]

/-- C4 witness: requesting 5 bytes from a source holding only 3 fails,
and the same reader then successfully yields those 3 bytes. -/
theorem c4_witness :
    (ReaderState.read (ReaderState.init [[1, 2, 3]]) 5).1 = none ∧
    ((ReaderState.read (ReaderState.init [[1, 2, 3]]) 5).2.read 3).1 =
      some ((ReaderState.init [[1, 2, 3]]).flatRem.take 3) :=
  ⟨(c4_end_of_stream (ReaderState.init [[1, 2, 3]]) (by decide) 5
      (by decide)).1,
    (c4_end_of_stream (ReaderState.init [[1, 2, 3]]) (by decide) 5
      (by decide)).2.2.2.2 3 (by decide)⟩

/-- C7.  `readUntilEof` returns all currently-unread buffered bytes
concatenated with every remaining source chunk, succeeds at exhaustion,
and increments `bytesRead` by exactly the number of bytes returned;
called twice in a row after the source is exhausted (with unread bytes
pending), the first call returns a non-empty result and the second an
empty one (with no further counter change). -/
theorem c7_readUntilEof_drain (st : ReaderState) (hsrc : st.source = [])
    (hne : st.bufferOffset < st.buffer.length) :
    (st.readUntilEof).1 = st.flatRem ∧
    (st.readUntilEof).1 ≠ [] ∧
    (st.readUntilEof).2.bytesRead =
      st.bytesRead + (st.readUntilEof).1.length ∧
    ((st.readUntilEof).2.readUntilEof).1 = [] ∧
    ((st.readUntilEof).2.readUntilEof).2.bytesRead =
      (st.readUntilEof).2.bytesRead := by
  have h1 : (st.readUntilEof).1 = st.flatRem := by
    rw [ReaderState.readUntilEof, ReaderState.flatRem]
    simp
  refine ⟨h1, ?_, rfl, ?_, ?_⟩
  · rw [h1, ReaderState.flatRem, hsrc]
    intro hempty
    have := congrArg List.length hempty
    simp only [List.length_append, List.length_drop, List.flatten_nil,
      List.length_nil] at this
    omega
  · show ((st.readUntilEof).2.buffer.drop (st.readUntilEof).2.bufferOffset ::
      (st.readUntilEof).2.source).flatten = []
    rw [ReaderState.readUntilEof]
    simp [List.drop_length]
  · show (st.readUntilEof).2.bytesRead +
        ((st.readUntilEof).2.buffer.drop (st.readUntilEof).2.bufferOffset ::
          (st.readUntilEof).2.source).flatten.length =
      (st.readUntilEof).2.bytesRead
    rw [ReaderState.readUntilEof]
    simp [List.drop_length]

/-- C7 witness: a reader with 2 unread buffered bytes and an exhausted
source drains them on the first call and returns empty on the second. -/
theorem c7_witness :
    (ReaderState.readUntilEof ⟨[], [9, 8, 7], 1, 1⟩).1 =
      (⟨[], [9, 8, 7], 1, 1⟩ : ReaderState).flatRem ∧
    ((ReaderState.readUntilEof ⟨[], [9, 8, 7], 1, 1⟩).2.readUntilEof).1 =
      [] :=
  ⟨(c7_readUntilEof_drain ⟨[], [9, 8, 7], 1, 1⟩ rfl (by decide)).1,
    (c7_readUntilEof_drain ⟨[], [9, 8, 7], 1, 1⟩ rfl (by decide)).2.2.2.1⟩
